import Mathlib

/-!
Shallow embedding of the `trainer` repository (files `model_base.py` and
`trainer.py`) and proofs about the claims of its specification.

Conventions:
* Python float tensors are modelled as lists of `FVal` values, where an
  `FVal` is either a rational number or NaN.  Infinities are outside the
  modelled range (no code path under verification produces them).
* Python dicts keyed by strings are association lists with
  insert-or-overwrite semantics (`dictInsert`) and `Option`-valued lookup.
* `torch.norm` is `sqrt` of the sum of squares; since `sqrt` is not
  rational-valued we parametrise the embedding by a `sqrtFn : ℚ → ℚ`
  standing for the square-root on the (non-negative) inputs that occur.
-/

section Embedding

attribute [local semireducible] Rat.add Rat.mul Rat.inv Rat.sub

/-- A floating-point scalar: NaN or a rational value. -/
inductive FVal where
  | nan : FVal
  | val : ℚ → FVal
deriving DecidableEq, Repr

/-- A tensor is a flat list of scalars (shape is irrelevant to the claims). -/
abbrev Tensor := List FVal

def FVal.isNaNB : FVal → Bool
  | .nan => true
  | .val _ => false

/-- Python/torch `x != 0`: NaN compares unequal to everything, so NaN ≠ 0 is true. -/
def FVal.neZeroB : FVal → Bool
  | .nan => true
  | .val q => decide (q ≠ 0)

/-- Elementwise float addition with NaN propagation. -/
def FVal.add : FVal → FVal → FVal
  | .val a, .val b => .val (a + b)
  | _, _ => .nan

/-- `(eps * g) / d` for one tensor entry; `d = 0` never occurs on the guarded
path of `attack` (the norm is checked nonzero first). -/
def FVal.scaleDiv (eps : ℚ) : FVal → FVal → FVal
  | .val g, .val d => if d = 0 then .nan else .val (eps * g / d)
  | _, _ => .nan

/-- Elementwise tensor addition (shapes of `data` and `grad` coincide in the source). -/
def tensorAdd (a b : Tensor) : Tensor := List.zipWith FVal.add a b

/-- `epsilon * grad / norm` elementwise. -/
def tensorScaleDiv (eps : ℚ) (g : Tensor) (norm : FVal) : Tensor :=
  g.map (fun x => FVal.scaleDiv eps x norm)

/-- Sum of squares of a tensor, NaN if any entry is NaN. -/
def sumSq : Tensor → FVal
  | [] => .val 0
  | .nan :: _ => .nan
  | .val q :: t =>
    match sumSq t with
    | .nan => .nan
    | .val s => .val (q * q + s)

/-- `torch.norm` (L2): NaN if any entry is NaN, else `sqrt` of the sum of squares. -/
def l2norm (sqrtFn : ℚ → ℚ) (t : Tensor) : FVal :=
  match sumSq t with
  | .nan => .nan
  | .val s => .val (sqrtFn s)

/-- Is the first character list an initial segment of the second? -/
def listLE : List Char → List Char → Bool
  | [], _ => true
  | _ :: _, [] => false
  | a :: as, b :: bs => decide (a = b) && listLE as bs

/-- Substring containment on character lists (Python `in` on strings). -/
def substrAux : List Char → List Char → Bool
  | e, [] => listLE e []
  | e, s@(_ :: t) => listLE e s || substrAux e t

/-- Python `emb_name in name` (substring containment). -/
def isSubstr (e n : String) : Bool := substrAux e.toList n.toList

/-- One named parameter of the wrapped model (`model.named_parameters()`). -/
structure PParam where
  name : String
  requires_grad : Bool
  data : Tensor
  grad : Tensor
deriving DecidableEq, Repr

/-- `ModelBase`: the wrapped model's parameter list and the `backup` dict. -/
structure ModelBase where
  params : List PParam
  backup : List (String × Tensor)
deriving DecidableEq, Repr

/-- Python dict assignment `d[k] = v`: overwrite in place if present, else append. -/
def dictInsert (d : List (String × Tensor)) (k : String) (v : Tensor) :
    List (String × Tensor) :=
  if d.any (fun kv => kv.1 = k) then
    d.map (fun kv => if kv.1 = k then (k, v) else kv)
  else d ++ [(k, v)]

/-- Python dict lookup `d[k]` as an `Option`. -/
def dictGet? (d : List (String × Tensor)) (k : String) : Option Tensor :=
  (d.find? (fun kv => kv.1 = k)).map (fun kv => kv.2)

/-- Python `k in d`. -/
def dictMem (d : List (String × Tensor)) (k : String) : Bool :=
  d.any (fun kv => kv.1 = k)

/-- The guard `param.requires_grad and emb_name in name` of `attack`/`restore`. -/
def matchesB (p : PParam) (e : String) : Bool :=
  p.requires_grad && isSubstr e p.name

/-- Body of the inner loop of `ModelBase.attack` for one `emb_name`:
snapshot the current value, then perturb unless the gradient norm is zero or NaN. -/
def attackInner (sqrtFn : ℚ → ℚ) (eps : ℚ) (st : List (String × Tensor) × PParam)
    (e : String) : List (String × Tensor) × PParam :=
  if matchesB st.2 e then
    let b' := dictInsert st.1 st.2.name st.2.data
    let norm := l2norm sqrtFn st.2.grad
    if norm.neZeroB && !norm.isNaNB then
      let r_at := tensorScaleDiv eps st.2.grad norm
      (b', { st.2 with data := tensorAdd st.2.data r_at })
    else (b', st.2)
  else st

/-- The outer loop of `ModelBase.attack` over `named_parameters()`,
threading the shared `backup` dict. -/
def attackParams (sqrtFn : ℚ → ℚ) (eps : ℚ) (embNames : List String) :
    List (String × Tensor) → List PParam → List (String × Tensor) × List PParam
  | b, [] => (b, [])
  | b, p :: ps =>
    let (b1, p1) := embNames.foldl (attackInner sqrtFn eps) (b, p)
    let (b2, ps2) := attackParams sqrtFn eps embNames b1 ps
    (b2, p1 :: ps2)

/-- `ModelBase.attack(emb_names, epsilon)` from `model_base.py`. -/
def ModelBase.attack (m : ModelBase) (sqrtFn : ℚ → ℚ) (embNames : List String)
    (eps : ℚ := 1) : ModelBase :=
  let (b, ps) := attackParams sqrtFn eps embNames m.backup m.params
  { params := ps, backup := b }

/-- Body of the inner loop of `ModelBase.restore` for one `emb_name`:
`assert name in self.backup` (modelled as `Option` failure), then
`param.data = self.backup[name]`. -/
def restoreInner (b : List (String × Tensor)) (p? : Option PParam) (e : String) :
    Option PParam :=
  match p? with
  | none => none
  | some p =>
    if matchesB p e then
      match dictGet? b p.name with
      | none => none
      | some t => some { p with data := t }
    else some p

/-- The outer loop of `ModelBase.restore` (the `backup` dict is only read
during the loop and cleared afterwards). -/
def restoreParams (b : List (String × Tensor)) (embNames : List String) :
    List PParam → Option (List PParam)
  | [] => some []
  | p :: ps => do
    let p' ← embNames.foldl (restoreInner b) (some p)
    let ps' ← restoreParams b embNames ps
    pure (p' :: ps')

/-- `ModelBase.restore(emb_names)` from `model_base.py`; `none` models an
assertion failure, and on success `backup` is cleared unconditionally. -/
def ModelBase.restore (m : ModelBase) (embNames : List String) :
    Option ModelBase := do
  let ps ← restoreParams m.backup embNames m.params
  pure { params := ps, backup := [] }

/-! ### Dictionary lemmas -/

lemma dictGet?_insert_self (d : List (String × Tensor)) (k : String) (v : Tensor) :
    dictGet? (dictInsert d k v) k = some v := by
  induction d with
  | nil => simp [dictInsert, dictGet?]
  | cons a rest ih =>
    by_cases h1 : a.1 = k
    · simp [dictInsert, dictGet?, h1]
    · by_cases h2 : rest.any (fun kv => kv.1 = k)
      · simp only [dictInsert, List.any_cons, h1, decide_eq_true_eq, h2] at ih ⊢
        simpa [dictGet?, h1] using ih
      · simp only [dictInsert, List.any_cons, h1, decide_eq_true_eq, h2] at ih ⊢
        simpa [dictGet?, h1] using ih

lemma dictGet?_cons (a : String × Tensor) (d : List (String × Tensor)) (k' : String) :
    dictGet? (a :: d) k' = if a.1 = k' then some a.2 else dictGet? d k' := by
  by_cases h : a.1 = k'
  · rw [if_pos h]; unfold dictGet?
    rw [List.find?_cons_of_pos _ (by simpa using h)]; rfl
  · rw [if_neg h]; unfold dictGet?
    rw [List.find?_cons_of_neg _ (by simpa using h)]

lemma map_overwrite_id (k : String) (v : Tensor) (rest : List (String × Tensor))
    (h : rest.any (fun kv => kv.1 = k) = false) :
    rest.map (fun kv => if kv.1 = k then (k, v) else kv) = rest := by
  induction rest with
  | nil => rfl
  | cons a t ih =>
    simp only [List.any_cons, Bool.or_eq_false_iff, decide_eq_false_iff_not] at h
    simp [h.1, ih h.2]

lemma dictGet?_insert_ne (d : List (String × Tensor)) (k v k') (h : k' ≠ k) :
    dictGet? (dictInsert d k v) k' = dictGet? d k' := by
  induction d with
  | nil => simp [dictInsert, dictGet?, Ne.symm h]
  | cons a rest ih =>
    by_cases h2 : rest.any (fun kv => kv.1 = k)
    · have e1 : dictInsert rest k v
          = rest.map (fun kv => if kv.1 = k then (k, v) else kv) := by
        simp [dictInsert, h2]
      have e2 : dictInsert (a :: rest) k v
          = (if a.1 = k then (k, v) else a) ::
              rest.map (fun kv => if kv.1 = k then (k, v) else kv) := by
        simp [dictInsert, h2]
      rw [e2, ← e1]
      by_cases h1 : a.1 = k
      · rw [if_pos h1, dictGet?_cons, dictGet?_cons, if_neg (by simpa using Ne.symm h),
          if_neg (by rw [h1]; exact Ne.symm h), ih]
      · rw [if_neg h1, dictGet?_cons, dictGet?_cons, ih]
    · have e1 : dictInsert rest k v = rest ++ [(k, v)] := by
        simp [dictInsert, h2]
      by_cases h1 : a.1 = k
      · have e2 : dictInsert (a :: rest) k v
            = (k, v) :: rest.map (fun kv => if kv.1 = k then (k, v) else kv) := by
          simp [dictInsert, h1, h2]
        rw [e2, map_overwrite_id k v rest (Bool.eq_false_iff.mpr h2), dictGet?_cons,
          dictGet?_cons, if_neg (by simpa using Ne.symm h),
          if_neg (by rw [h1]; exact Ne.symm h)]
      · have e2 : dictInsert (a :: rest) k v = a :: dictInsert rest k v := by
          simp only [dictInsert, List.any_cons, h1, decide_False, Bool.false_or, h2,
            Bool.false_eq_true, if_false]
          rfl
        rw [e2, dictGet?_cons, dictGet?_cons, ih]

lemma dictMem_insert_self (d : List (String × Tensor)) (k v) :
    dictMem (dictInsert d k v) k = true := by
  induction d with
  | nil => simp [dictInsert, dictMem]
  | cons a rest ih =>
    by_cases h1 : a.1 = k
    · simp [dictInsert, dictMem, h1]
    · by_cases h2 : rest.any (fun kv => kv.1 = k)
      all_goals simp_all [dictInsert, dictMem, h1]

lemma dictMem_insert_of_mem (d : List (String × Tensor)) (k v k')
    (h : dictMem d k' = true) : dictMem (dictInsert d k v) k' = true := by
  by_cases hk : k' = k
  · subst hk; exact dictMem_insert_self d k' v
  · have := dictGet?_insert_ne d k v k' hk
    unfold dictMem at h ⊢
    unfold dictGet? at this
    rcases h' : (dictInsert d k v).find? (fun kv => kv.1 = k') with _ | kv
    · rw [h'] at this
      rcases h'' : d.find? (fun kv => kv.1 = k') with _ | kv₂
      · rw [List.find?_eq_none] at h''
        rw [List.any_eq_true] at h
        obtain ⟨x, hx, hx2⟩ := h
        exact absurd hx2 (by simpa using h'' x hx)
      · rw [h''] at this; simp at this
    · have := List.find?_some h'
      rw [List.any_eq_true]
      exact ⟨kv, List.mem_of_find?_eq_some h', this⟩

/-! ### Attack-loop lemmas -/

/-- `attack`'s inner loop never changes the name, trainable flag or gradient. -/
lemma attackInner_fields (f : ℚ → ℚ) (eps : ℚ) (st : List (String × Tensor) × PParam)
    (e : String) :
    ((attackInner f eps st e).2).name = st.2.name
    ∧ ((attackInner f eps st e).2).requires_grad = st.2.requires_grad
    ∧ ((attackInner f eps st e).2).grad = st.2.grad := by
  unfold attackInner
  split
  · dsimp only
    split
    · exact ⟨rfl, rfl, rfl⟩
    · exact ⟨rfl, rfl, rfl⟩
  · exact ⟨rfl, rfl, rfl⟩

lemma matchesB_congr (p q : PParam) (h1 : q.name = p.name)
    (h2 : q.requires_grad = p.requires_grad) (e : String) :
    matchesB q e = matchesB p e := by
  unfold matchesB; rw [h1, h2]

/-- How many entries of `es` the parameter `p` matches (with multiplicity). -/
def countMatches (p : PParam) : List String → ℕ
  | [] => 0
  | e :: t => (if matchesB p e then 1 else 0) + countMatches p t

lemma countMatches_congr (p q : PParam) (h1 : q.name = p.name)
    (h2 : q.requires_grad = p.requires_grad) (es : List String) :
    countMatches q es = countMatches p es := by
  induction es with
  | nil => rfl
  | cons e t ih => unfold countMatches; rw [matchesB_congr p q h1 h2, ih]

lemma attackFold_fields (f : ℚ → ℚ) (eps : ℚ) (es : List String) :
    ∀ st : List (String × Tensor) × PParam,
      ((es.foldl (attackInner f eps) st).2).name = st.2.name
      ∧ ((es.foldl (attackInner f eps) st).2).requires_grad = st.2.requires_grad
      ∧ ((es.foldl (attackInner f eps) st).2).grad = st.2.grad := by
  induction es with
  | nil => intro st; exact ⟨rfl, rfl, rfl⟩
  | cons e t ih =>
    intro st
    have h1 := attackInner_fields f eps st e
    have h2 := ih (attackInner f eps st e)
    rw [List.foldl_cons]
    exact ⟨h2.1.trans h1.1, h2.2.1.trans h1.2.1, h2.2.2.trans h1.2.2⟩

lemma attackInner_of_not_matches (f : ℚ → ℚ) (eps : ℚ) (st) (e : String)
    (h : ¬ matchesB st.2 e) : attackInner f eps st e = st := by
  unfold attackInner; rw [if_neg (by simpa using h)]

lemma attackInner_backup_of_matches (f : ℚ → ℚ) (eps : ℚ) (st) (e : String)
    (h : matchesB st.2 e) :
    (attackInner f eps st e).1 = dictInsert st.1 st.2.name st.2.data := by
  unfold attackInner
  rw [if_pos (by simpa using h)]
  dsimp only
  split <;> rfl

/-- If no name in `es` matches, the inner attack fold is the identity. -/
lemma attackFold_zero (f : ℚ → ℚ) (eps : ℚ) (es : List String) :
    ∀ st, countMatches st.2 es = 0 →
      es.foldl (attackInner f eps) st = st := by
  induction es with
  | nil => intro st _; rfl
  | cons e t ih =>
    intro st h
    unfold countMatches at h
    by_cases he : matchesB st.2 e
    · rw [if_pos he] at h; omega
    · rw [if_neg he, Nat.zero_add] at h
      rw [List.foldl_cons, attackInner_of_not_matches f eps st e he, ih st h]

/-- With exactly one matching name, the inner attack fold snapshots the
original value once, into key `st.2.name`. -/
lemma attackFold_one (f : ℚ → ℚ) (eps : ℚ) (es : List String) :
    ∀ st, countMatches st.2 es = 1 →
      (es.foldl (attackInner f eps) st).1 = dictInsert st.1 st.2.name st.2.data := by
  induction es with
  | nil => intro st h; simp [countMatches] at h
  | cons e t ih =>
    intro st h
    unfold countMatches at h
    by_cases he : matchesB st.2 e
    · rw [if_pos he] at h
      have ht : countMatches st.2 t = 0 := by omega
      have hfields := attackInner_fields f eps st e
      have ht' : countMatches (attackInner f eps st e).2 t = 0 := by
        rw [countMatches_congr st.2 _ hfields.1 hfields.2.1]; exact ht
      rw [List.foldl_cons, attackFold_zero f eps t _ ht',
        attackInner_backup_of_matches f eps st e he]
    · rw [if_neg he, Nat.zero_add] at h
      rw [List.foldl_cons, attackInner_of_not_matches f eps st e he]
      exact ih st h

/-- The inner attack fold only writes the processed parameter's own key. -/
lemma attackFold_get_ne (f : ℚ → ℚ) (eps : ℚ) (es : List String) :
    ∀ st k, k ≠ st.2.name →
      dictGet? ((es.foldl (attackInner f eps) st).1) k = dictGet? st.1 k := by
  induction es with
  | nil => intro st k _; rfl
  | cons e t ih =>
    intro st k hk
    have hf := attackInner_fields f eps st e
    have hk' : k ≠ (attackInner f eps st e).2.name := by rw [hf.1]; exact hk
    rw [List.foldl_cons, ih _ k hk']
    by_cases hm : matchesB st.2 e
    · rw [attackInner_backup_of_matches f eps st e hm, dictGet?_insert_ne _ _ _ _ hk]
    · rw [attackInner_of_not_matches f eps st e hm]

/-- Matching step with a zero-or-NaN gradient norm: snapshot, but no perturbation. -/
lemma attackInner_degen (f : ℚ → ℚ) (eps : ℚ) (st) (e : String)
    (hm : matchesB st.2 e)
    (hd : ((l2norm f st.2.grad).neZeroB && !(l2norm f st.2.grad).isNaNB) = false) :
    attackInner f eps st e = (dictInsert st.1 st.2.name st.2.data, st.2) := by
  unfold attackInner
  rw [if_pos (by simpa using hm)]
  dsimp only
  rw [if_neg (by simp [hd])]

/-- With a zero-or-NaN gradient norm, the whole inner fold leaves the
parameter untouched, and (when it matches at all) snapshots its original value. -/
lemma attackFold_degen (f : ℚ → ℚ) (eps : ℚ) (es : List String) :
    ∀ st, ((l2norm f st.2.grad).neZeroB && !(l2norm f st.2.grad).isNaNB) = false →
      (es.foldl (attackInner f eps) st).2 = st.2
      ∧ (0 < countMatches st.2 es →
          dictGet? ((es.foldl (attackInner f eps) st).1) st.2.name = some st.2.data) := by
  induction es with
  | nil => intro st _; exact ⟨rfl, by intro h; simp [countMatches] at h⟩
  | cons e t ih =>
    intro st hd
    by_cases hm : matchesB st.2 e
    · have hstep := attackInner_degen f eps st e hm hd
      have ih' := ih (dictInsert st.1 st.2.name st.2.data, st.2) (by exact hd)
      constructor
      · rw [List.foldl_cons, hstep]; exact ih'.1
      · intro _
        by_cases hc : 0 < countMatches st.2 t
        · rw [List.foldl_cons, hstep]; exact ih'.2 hc
        · have hz : countMatches st.2 t = 0 := by omega
          rw [List.foldl_cons, hstep,
            attackFold_zero f eps t (dictInsert st.1 st.2.name st.2.data, st.2) hz]
          exact dictGet?_insert_self st.1 st.2.name st.2.data
    · have hstep := attackInner_of_not_matches f eps st e hm
      have ih' := ih st hd
      constructor
      · rw [List.foldl_cons, hstep]; exact ih'.1
      · intro hc
        have hc' : 0 < countMatches st.2 t := by
          unfold countMatches at hc; rw [if_neg hm, Nat.zero_add] at hc; exact hc
        rw [List.foldl_cons, hstep]; exact ih'.2 hc'

/-- The inner attack fold never removes keys from the backup dict. -/
lemma attackFold_mem_mono (f : ℚ → ℚ) (eps : ℚ) (es : List String) :
    ∀ st k, dictMem st.1 k = true →
      dictMem ((es.foldl (attackInner f eps) st).1) k = true := by
  induction es with
  | nil => intro st k h; exact h
  | cons e t ih =>
    intro st k h
    rw [List.foldl_cons]
    apply ih
    by_cases hm : matchesB st.2 e
    · rw [attackInner_backup_of_matches f eps st e hm]
      exact dictMem_insert_of_mem st.1 st.2.name st.2.data k h
    · rw [attackInner_of_not_matches f eps st e hm]; exact h

/-- A matching parameter's key is in the backup after the inner fold. -/
lemma attackFold_mem (f : ℚ → ℚ) (eps : ℚ) (es : List String) :
    ∀ st, 0 < countMatches st.2 es →
      dictMem ((es.foldl (attackInner f eps) st).1) st.2.name = true := by
  induction es with
  | nil => intro st h; simp [countMatches] at h
  | cons e t ih =>
    intro st h
    by_cases hm : matchesB st.2 e
    · have hb := attackInner_backup_of_matches f eps st e hm
      have hf := attackInner_fields f eps st e
      rw [List.foldl_cons]
      have : dictMem (attackInner f eps st e).1 st.2.name = true := by
        rw [hb]; exact dictMem_insert_self st.1 st.2.name st.2.data
      exact attackFold_mem_mono f eps t _ _ this
    · have hc' : 0 < countMatches st.2 t := by
        unfold countMatches at h; rw [if_neg hm, Nat.zero_add] at h; exact h
      rw [List.foldl_cons, attackInner_of_not_matches f eps st e hm]
      exact ih st hc'

/-! ### Outer-loop lemmas -/

lemma attackParams_cons (f : ℚ → ℚ) (eps : ℚ) (es : List String)
    (b : List (String × Tensor)) (p : PParam) (ps : List PParam) :
    attackParams f eps es b (p :: ps) =
      ((attackParams f eps es (es.foldl (attackInner f eps) (b, p)).1 ps).1,
       (es.foldl (attackInner f eps) (b, p)).2 ::
         (attackParams f eps es (es.foldl (attackInner f eps) (b, p)).1 ps).2) := rfl

/-- Keys of parameters not in the processed list are untouched by the outer loop. -/
lemma attackParams_get_ne (f : ℚ → ℚ) (eps : ℚ) (es : List String) :
    ∀ (ps : List PParam) (b : List (String × Tensor)) (k : String),
      (∀ p ∈ ps, p.name ≠ k) →
      dictGet? ((attackParams f eps es b ps).1) k = dictGet? b k := by
  intro ps
  induction ps with
  | nil => intro b k _; rfl
  | cons p rest ih =>
    intro b k hk
    rw [attackParams_cons]
    dsimp only
    rw [ih _ k (fun q hq => hk q (List.mem_cons_of_mem p hq))]
    exact attackFold_get_ne f eps es (b, p) k
      (fun hc => hk p (List.mem_cons_self p rest) hc.symm)

/-- The outer loop never removes keys from the backup dict. -/
lemma attackParams_mem_mono (f : ℚ → ℚ) (eps : ℚ) (es : List String) :
    ∀ (ps : List PParam) (b : List (String × Tensor)) (k : String),
      dictMem b k = true →
      dictMem ((attackParams f eps es b ps).1) k = true := by
  intro ps
  induction ps with
  | nil => intro b k h; exact h
  | cons p rest ih =>
    intro b k h
    rw [attackParams_cons]
    dsimp only
    exact ih _ k (attackFold_mem_mono f eps es (b, p) k h)

/-- Every matched parameter has a backup entry after `attack`'s outer loop. -/
lemma attackParams_mem (f : ℚ → ℚ) (eps : ℚ) (es : List String) :
    ∀ (ps : List PParam) (b : List (String × Tensor)) (p : PParam),
      p ∈ ps → 0 < countMatches p es →
      dictMem ((attackParams f eps es b ps).1) p.name = true := by
  intro ps
  induction ps with
  | nil => intro b p hp _; cases hp
  | cons q rest ih =>
    intro b p hp hc
    rw [attackParams_cons]
    dsimp only
    rcases List.mem_cons.mp hp with h | h
    · subst h
      exact attackParams_mem_mono f eps es rest _ p.name
        (attackFold_mem f eps es (b, p) hc)
    · exact ih _ p h hc

/-! ### Restore-loop lemmas -/

lemma dictMem_get? (d : List (String × Tensor)) (k : String) :
    dictMem d k = true ↔ ∃ t, dictGet? d k = some t := by
  unfold dictMem dictGet?
  constructor
  · intro h
    rw [List.any_eq_true] at h
    obtain ⟨x, hx, hpx⟩ := h
    cases hf : d.find? (fun kv => kv.1 = k) with
    | none =>
      rw [List.find?_eq_none] at hf
      exact absurd hpx (by simpa using hf x hx)
    | some kv => exact ⟨kv.2, by simp [hf]⟩
  · intro ⟨t, ht⟩
    cases hf : d.find? (fun kv => kv.1 = k) with
    | none => rw [hf] at ht; simp at ht
    | some kv =>
      rw [List.any_eq_true]
      refine ⟨kv, List.mem_of_find?_eq_some hf, ?_⟩
      have h1 := List.find?_some hf
      simpa using h1

lemma restoreInner_not (b : List (String × Tensor)) (p : PParam) (e : String)
    (h : ¬ matchesB p e) : restoreInner b (some p) e = some p := by
  simp [restoreInner, h]

lemma restoreInner_match (b : List (String × Tensor)) (p : PParam) (e : String)
    (t : Tensor) (h : matchesB p e) (ht : dictGet? b p.name = some t) :
    restoreInner b (some p) e = some { p with data := t } := by
  simp [restoreInner, h, ht]

lemma restoreFold_zero (b : List (String × Tensor)) (es : List String) :
    ∀ p : PParam, countMatches p es = 0 →
      es.foldl (restoreInner b) (some p) = some p := by
  induction es with
  | nil => intro p _; rfl
  | cons e r ih =>
    intro p h
    unfold countMatches at h
    by_cases hm : matchesB p e
    · rw [if_pos hm] at h; omega
    · rw [if_neg hm, Nat.zero_add] at h
      rw [List.foldl_cons, restoreInner_not b p e hm, ih p h]

lemma restoreFold_pos (b : List (String × Tensor)) (es : List String) :
    ∀ (p : PParam) (t : Tensor), dictGet? b p.name = some t →
      0 < countMatches p es →
      es.foldl (restoreInner b) (some p) = some { p with data := t } := by
  induction es with
  | nil => intro p t _ h; simp [countMatches] at h
  | cons e r ih =>
    intro p t hget hpos
    by_cases hm : matchesB p e
    · rw [List.foldl_cons, restoreInner_match b p e t hm hget]
      by_cases hc : 0 < countMatches ({ p with data := t } : PParam) r
      · have := ih { p with data := t } t hget hc
        rw [this]
      · have hz : countMatches ({ p with data := t } : PParam) r = 0 := by omega
        rw [restoreFold_zero b r _ hz]
    · rw [List.foldl_cons, restoreInner_not b p e hm]
      apply ih p t hget
      unfold countMatches at hpos
      rw [if_neg hm, Nat.zero_add] at hpos
      exact hpos

lemma restoreParams_cons (b : List (String × Tensor)) (es : List String)
    (p : PParam) (ps : List PParam) :
    restoreParams b es (p :: ps) =
      (es.foldl (restoreInner b) (some p)).bind (fun p' =>
        (restoreParams b es ps).bind (fun ps' => some (p' :: ps'))) := rfl

lemma pparam_ext (a b : PParam) (h1 : a.name = b.name)
    (h2 : a.requires_grad = b.requires_grad) (h3 : a.data = b.data)
    (h4 : a.grad = b.grad) : a = b := by
  cases a; cases b
  dsimp at h1 h2 h3 h4
  rw [h1, h2, h3, h4]

/-- Composite round trip: if parameter names are distinct and each parameter
matches at most one entry of `emb_names` (with multiplicity), the restore
loop run on the attacked state recovers the original parameters. -/
lemma attack_restore_aux (f : ℚ → ℚ) (eps : ℚ) (es : List String) :
    ∀ (ps : List PParam) (b0 : List (String × Tensor)),
      (ps.map (fun p => p.name)).Nodup →
      (∀ p ∈ ps, countMatches p es ≤ 1) →
      restoreParams (attackParams f eps es b0 ps).1 es (attackParams f eps es b0 ps).2
        = some ps := by
  intro ps
  induction ps with
  | nil => intro b0 _ _; rfl
  | cons p rest ih =>
    intro b0 hnd hcnt
    have hndr : (rest.map (fun q => q.name)).Nodup := (List.nodup_cons.mp (by simpa using hnd)).2
    have hpnotin : p.name ∉ rest.map (fun q => q.name) :=
      (List.nodup_cons.mp (by simpa using hnd)).1
    have hcntr : ∀ q ∈ rest, countMatches q es ≤ 1 :=
      fun q hq => hcnt q (List.mem_cons_of_mem p hq)
    rw [attackParams_cons]
    dsimp only
    rw [restoreParams_cons, ih _ hndr hcntr]
    rcases Nat.eq_zero_or_pos (countMatches p es) with hz | hpos
    · have hfold0 : es.foldl (attackInner f eps) (b0, p) = (b0, p) :=
        attackFold_zero f eps es (b0, p) hz
      rw [hfold0, restoreFold_zero _ es p hz]
      rfl
    · have h1 : countMatches p es = 1 :=
        le_antisymm (hcnt p (List.mem_cons_self p rest)) hpos
      have hb1 : (es.foldl (attackInner f eps) (b0, p)).1 = dictInsert b0 p.name p.data :=
        attackFold_one f eps es (b0, p) h1
      have hflds := attackFold_fields f eps es (b0, p)
      have hgetB : dictGet?
          (attackParams f eps es (es.foldl (attackInner f eps) (b0, p)).1 rest).1 p.name
            = some p.data := by
        rw [attackParams_get_ne f eps es rest _ p.name
          (fun q hq hqe => hpnotin (by rw [← hqe]; exact List.mem_map_of_mem _ hq)),
          hb1]
        exact dictGet?_insert_self b0 p.name p.data
      have hc1 : 0 < countMatches (es.foldl (attackInner f eps) (b0, p)).2 es := by
        rw [countMatches_congr p _ hflds.1 hflds.2.1]
        omega
      have hfold := restoreFold_pos _ es (es.foldl (attackInner f eps) (b0, p)).2 p.data
        (by rw [hflds.1]; exact hgetB) hc1
      rw [hfold]
      have hEq : ({ (es.foldl (attackInner f eps) (b0, p)).2 with data := p.data } : PParam)
          = p := pparam_ext _ p hflds.1 hflds.2.1 rfl hflds.2.2
      rw [hEq]
      rfl

/-! ### Claim C1: attack/restore symmetry -/

/-- One trainable parameter whose name contains *two* entries of the target
list (`"emb"` exactly, and `"b"` as a substring); its gradient has norm 1. -/
def mDouble : ModelBase :=
  { params := [{ name := "emb", requires_grad := true, data := [.val 0], grad := [.val 1] }],
    backup := [] }

/-- C1 is false as stated: for the model `mDouble` and target set
`["emb", "b"]`, the parameter named `"emb"` (an exact match of the first
target) is perturbed twice by `attack`, the second snapshot overwrites the
first with the already-perturbed value, and `restore` therefore brings the
parameter to `[1]` instead of its pre-attack value `[0]`. -/
theorem attack_restore_double_match_cex :
    mDouble.params = [⟨"emb", true, [.val 0], [.val 1]⟩]
    ∧ ((mDouble.attack id ["emb", "b"] 1).restore ["emb", "b"]).map
        (fun m => m.params.map (fun p => p.data)) = some [[FVal.val 1]]
    ∧ some (mDouble.params.map (fun p => p.data)) ≠
        ((mDouble.attack id ["emb", "b"] 1).restore ["emb", "b"]).map
          (fun m => m.params.map (fun p => p.data)) := by decide

/-- C1 (amended): provided the parameter names are distinct and each
parameter's name contains at most one entry of the target list (counted with
multiplicity), `restore(targetNames)` after `attack(targetNames, eps)`
returns every parameter to its pre-attack value and empties the snapshot,
regardless of whether perturbations were applied or skipped. -/
theorem attack_restore_symmetry (f : ℚ → ℚ) (eps : ℚ) (es : List String)
    (m : ModelBase)
    (hnd : (m.params.map (fun p => p.name)).Nodup)
    (hcnt : ∀ p ∈ m.params, countMatches p es ≤ 1) :
    (m.attack f es eps).restore es = some { params := m.params, backup := [] } := by
  have h := attack_restore_aux f eps es m.params m.backup hnd hcnt
  show (restoreParams (attackParams f eps es m.backup m.params).1 es
      (attackParams f eps es m.backup m.params).2).bind
      (fun ps => some ({ params := ps, backup := [] } : ModelBase))
    = some { params := m.params, backup := [] }
  rw [h]
  rfl

/-- The two-parameter model used to witness `attack_restore_symmetry`. -/
def mSymW : ModelBase :=
  { params := [⟨"encoder.embedding.weight", true, [.val 2, .val 3], [.val 3, .val 4]⟩,
               ⟨"classifier.weight", true, [.val 5], [.val 1]⟩],
    backup := [] }

/-- Witness for C1 (amended) at a concrete two-parameter model (the first
parameter's gradient has squared norm 25, so the square root is 5). -/
theorem attack_restore_symmetry_witness :
    (mSymW.attack (fun q => if q = 25 then 5 else q) ["embedding"] 1).restore ["embedding"]
      = some { params := mSymW.params, backup := [] } :=
  attack_restore_symmetry (fun q => if q = 25 then 5 else q) 1 ["embedding"] mSymW
    (by decide) (by decide)

/-! ### Claim C7: degenerate gradient norm -/

lemma degen_guard (x : FVal) (h : x = FVal.val 0 ∨ x.isNaNB = true) :
    (x.neZeroB && !x.isNaNB) = false := by
  rcases h with h | h
  · subst h; decide
  · cases x with
    | nan => rfl
    | val q => simp [FVal.isNaNB] at h

/-- Index-wise effect of `attack` on a parameter with zero-or-NaN gradient
norm: it is left untouched, and if it matches at all, its original value is
in the final backup. -/
lemma attackParams_degen_get (f : ℚ → ℚ) (eps : ℚ) (es : List String) :
    ∀ (ps : List PParam) (b : List (String × Tensor)) (i : ℕ) (p : PParam),
      (ps.map (fun q => q.name)).Nodup →
      ps.get? i = some p →
      ((l2norm f p.grad).neZeroB && !(l2norm f p.grad).isNaNB) = false →
      (attackParams f eps es b ps).2.get? i = some p
      ∧ (0 < countMatches p es →
          dictGet? (attackParams f eps es b ps).1 p.name = some p.data) := by
  intro ps
  induction ps with
  | nil => intro b i p _ hp _; simp at hp
  | cons q rest ih =>
    intro b i p hnd hp hdeg
    have hndr : (rest.map (fun r => r.name)).Nodup := (List.nodup_cons.mp (by simpa using hnd)).2
    have hqnotin : q.name ∉ rest.map (fun r => r.name) :=
      (List.nodup_cons.mp (by simpa using hnd)).1
    rw [attackParams_cons]
    dsimp only
    cases i with
    | zero =>
      rw [List.get?_cons_zero] at hp
      have hpq : p = q := by injection hp with h; exact h.symm
      subst hpq
      have hdg := attackFold_degen f eps es (b, p) hdeg
      constructor
      · rw [List.get?_cons_zero, hdg.1]
      · intro hc
        rw [attackParams_get_ne f eps es rest _ p.name
          (fun r hr hre => hqnotin (by rw [← hre]; exact List.mem_map_of_mem _ hr))]
        exact hdg.2 hc
    | succ j =>
      rw [List.get?_cons_succ] at hp
      have := ih (es.foldl (attackInner f eps) (b, q)).1 j p hndr hp hdeg
      exact ⟨by rw [List.get?_cons_succ]; exact this.1, this.2⟩

/-- Every parameter of the attacked list that matches some target name has a
backup entry (no name-distinctness needed). -/
lemma attackParams_matched_mem (f : ℚ → ℚ) (eps : ℚ) (es : List String) :
    ∀ (ps : List PParam) (b : List (String × Tensor)) (p' : PParam),
      p' ∈ (attackParams f eps es b ps).2 → 0 < countMatches p' es →
      dictMem (attackParams f eps es b ps).1 p'.name = true := by
  intro ps
  induction ps with
  | nil => intro b p' hp' _; simp [attackParams] at hp'
  | cons q rest ih =>
    intro b p' hp' hc
    rw [attackParams_cons] at hp' ⊢
    dsimp only at hp' ⊢
    rcases List.mem_cons.mp hp' with h | h
    · subst h
      have hflds := attackFold_fields f eps es (b, q)
      have hcq : 0 < countMatches q es := by
        rw [← countMatches_congr q _ hflds.1 hflds.2.1]; exact hc
      have hmem := attackFold_mem f eps es (b, q) hcq
      rw [hflds.1]
      exact attackParams_mem_mono f eps es rest _ q.name hmem
    · exact ih _ p' h hc

lemma restoreFold_some (b : List (String × Tensor)) (es : List String) (p : PParam)
    (h : 0 < countMatches p es → dictMem b p.name = true) :
    ∃ q, es.foldl (restoreInner b) (some p) = some q := by
  rcases Nat.eq_zero_or_pos (countMatches p es) with hz | hpos
  · exact ⟨p, restoreFold_zero b es p hz⟩
  · obtain ⟨t, ht⟩ := (dictMem_get? b p.name).mp (h hpos)
    exact ⟨_, restoreFold_pos b es p t ht hpos⟩

lemma restoreParams_some (b : List (String × Tensor)) (es : List String) :
    ∀ ps : List PParam,
      (∀ p ∈ ps, 0 < countMatches p es → dictMem b p.name = true) →
      ∃ qs, restoreParams b es ps = some qs := by
  intro ps
  induction ps with
  | nil => exact fun _ => ⟨[], rfl⟩
  | cons p rest ih =>
    intro h
    obtain ⟨q, hq⟩ := restoreFold_some b es p (h p (List.mem_cons_self p rest))
    obtain ⟨qs, hqs⟩ := ih (fun r hr => h r (List.mem_cons_of_mem p hr))
    exact ⟨q :: qs, by rw [restoreParams_cons, hq, hqs]; rfl⟩

/-- Index-wise description of a successful restore loop. -/
lemma restoreParams_get? (b : List (String × Tensor)) (es : List String) :
    ∀ (ps qs : List PParam), restoreParams b es ps = some qs →
      ∀ (i : ℕ) (p : PParam), ps.get? i = some p →
        qs.get? i = es.foldl (restoreInner b) (some p) := by
  intro ps
  induction ps with
  | nil => intro qs _ i p hp; simp at hp
  | cons p0 rest ih =>
    intro qs hqs i p hp
    rw [restoreParams_cons] at hqs
    cases hf : es.foldl (restoreInner b) (some p0) with
    | none => rw [hf] at hqs; exact Option.noConfusion hqs
    | some q0 =>
      rw [hf] at hqs
      simp only [Option.some_bind] at hqs
      cases hr : restoreParams b es rest with
      | none => rw [hr] at hqs; exact Option.noConfusion hqs
      | some qs0 =>
        rw [hr] at hqs
        simp only [Option.some_bind] at hqs
        injection hqs with hqs
        subst hqs
        cases i with
        | zero =>
          rw [List.get?_cons_zero] at hp
          injection hp with hp; subst hp
          rw [List.get?_cons_zero, hf]
        | succ j =>
          rw [List.get?_cons_succ] at hp
          rw [List.get?_cons_succ]
          exact ih qs0 hr j p hp

/-- C7: during `attack`, a matching trainable parameter whose gradient L2
norm is zero or NaN is left unchanged but still snapshotted, and the
subsequent `restore` leaves it identical to its pre-attack value. -/
theorem attack_skip_degenerate_norm (f : ℚ → ℚ) (eps : ℚ) (es : List String)
    (m : ModelBase) (i : ℕ) (p : PParam)
    (hnd : (m.params.map (fun q => q.name)).Nodup)
    (hp : m.params.get? i = some p)
    (hm : 0 < countMatches p es)
    (hdeg : l2norm f p.grad = FVal.val 0 ∨ (l2norm f p.grad).isNaNB = true) :
    (m.attack f es eps).params.get? i = some p
    ∧ dictGet? (m.attack f es eps).backup p.name = some p.data
    ∧ ∃ m2, (m.attack f es eps).restore es = some m2 ∧ m2.params.get? i = some p := by
  have hg := degen_guard _ hdeg
  have hd := attackParams_degen_get f eps es m.params m.backup i p hnd hp hg
  refine ⟨hd.1, hd.2 hm, ?_⟩
  obtain ⟨qs, hqs⟩ := restoreParams_some (attackParams f eps es m.backup m.params).1 es
    (attackParams f eps es m.backup m.params).2
    (fun p' hp' hc => attackParams_matched_mem f eps es m.params m.backup p' hp' hc)
  refine ⟨⟨qs, []⟩, ?_, ?_⟩
  · show (restoreParams (attackParams f eps es m.backup m.params).1 es
        (attackParams f eps es m.backup m.params).2).bind
        (fun ps => some ({ params := ps, backup := [] } : ModelBase))
      = some ⟨qs, []⟩
    rw [hqs]; rfl
  · show qs.get? i = some p
    have hq := restoreParams_get? (attackParams f eps es m.backup m.params).1 es
      (attackParams f eps es m.backup m.params).2 qs hqs i p hd.1
    rw [hq, restoreFold_pos _ es p p.data (hd.2 hm) hm]

/-- One trainable matching parameter with an exactly-zero gradient. -/
def mDegW : ModelBase :=
  { params := [⟨"emb.weight", true, [.val 7], [.val 0]⟩], backup := [] }

/-- The parameter of `mDegW`. -/
def pDegW : PParam := ⟨"emb.weight", true, [.val 7], [.val 0]⟩

/-- Witness for C7: gradient norm exactly 0, value untouched, snapshot taken,
restore returns the original. -/
theorem attack_skip_degenerate_norm_witness :
    (mDegW.attack id ["emb"] 1).params.get? 0 = some pDegW
    ∧ dictGet? (mDegW.attack id ["emb"] 1).backup pDegW.name = some pDegW.data
    ∧ ∃ m2, (mDegW.attack id ["emb"] 1).restore ["emb"] = some m2
        ∧ m2.params.get? 0 = some pDegW :=
  attack_skip_degenerate_norm id 1 ["emb"] mDegW 0 pDegW (by decide) (by decide)
    (by decide) (by decide)

/-! ## Embedding of `trainer.py`

The training loop of `Trainer.train` (lines 167–208) is embedded as a small
interpreter producing an event trace.  External collaborators are oracles:
`od n` is the `(outputs, labels, loss_item)` triple produced by
`training_step` for the `n`-th batch overall (indexed by the number of
completed batches, i.e. the current `global_step`), and `el g` is the eval
loss computed by `evaluate` inside `log` when called at `global_step = g`.
Logging/`tqdm`/TensorBoard output, CUDA cache clearing and the optional
reshuffle hook have no modelled state.  `args.training.num_train_epochs` is
taken as the already-resolved epoch count and `len(train_dataloader)` as
`numBatches`.  The fp16 flag only selects which clip-norm variant runs; both
are the single `clipGrad` event. -/

/-- A Python exception relevant to the embedded code. -/
inductive PyErr where
  | typeError (msg : String)
  | keyError (key : String)
deriving DecidableEq, Repr

/-- `self.dev_best_loss`: `float('inf')` or a finite loss value. -/
inductive BestLoss where
  | inf : BestLoss
  | fin (q : ℚ) : BestLoss
deriving DecidableEq, Repr

/-- `eval_loss < self.dev_best_loss` on floats (eval losses are finite). -/
def ltBest (e : ℚ) : BestLoss → Bool
  | .inf => true
  | .fin q => decide (e < q)

/-- `≤` on best-loss values. -/
def bestLE : BestLoss → BestLoss → Bool
  | _, .inf => true
  | .inf, .fin _ => false
  | .fin a, .fin b => decide (a ≤ b)

/-- The external sklearn metric collaborators (`metrics.accuracy_score`
etc.), each called as `f(true_labels, predictions)`. -/
structure MetricFns where
  accS : List ℤ → List ℕ → ℚ
  f1S : List ℤ → List ℕ → ℚ
  precS : List ℤ → List ℕ → ℚ
  recS : List ℤ → List ℕ → ℚ

/-- `torch.argmax` over one row: index of the first maximal entry. -/
def argmaxAux : ℕ → ℕ → ℚ → List ℚ → ℕ
  | _, bi, _, [] => bi
  | i, bi, bv, x :: xs =>
    if bv < x then argmaxAux (i + 1) i x xs else argmaxAux (i + 1) bi bv xs

/-- `torch.argmax(outputs, dim=1)` for a single row. -/
def argmaxRow : List ℚ → ℕ
  | [] => 0
  | x :: xs => argmaxAux 1 0 x xs

/-- `Trainer.metric(preds, true, 'train')[0]`: the result dict with keys
`acc`, `f1`, `precision`, `recall` in insertion order. -/
def trainerMetricDict (mf : MetricFns) (preds : List ℕ) (truth : List ℤ) :
    List (String × ℚ) :=
  [("acc", mf.accS truth preds), ("f1", mf.f1S truth preds),
   ("precision", mf.precS truth preds), ("recall", mf.recS truth preds)]

/-- Python `m[k]`: the value, or a `KeyError`. -/
def pyGet (m : List (String × ℚ)) (k : String) : Except PyErr ℚ :=
  match m.find? (fun kv => kv.1 = k) with
  | some kv => .ok kv.2
  | none => .error (.keyError k)

/-- `str(m.keys())`, as interpolated by `'... choose in [{}]'.format(m.keys())`. -/
def pyDictKeysRepr (m : List (String × ℚ)) : String :=
  "dict_keys([" ++ String.intercalate ", " (m.map (fun kv => "'" ++ kv.1 ++ "'")) ++ "])"

/-- `Trainer.step_Plateau_scheduler(outputs, labels, loss)`: returns the
scalar fed to `self.scheduler.step(...)`, or the raised exception.  Source
(trainer.py lines 428–445): for `precision`/`recall` it reads `m['p']` and
`m['r']`, keys the metric dict does not contain. -/
def step_Plateau_scheduler (mf : MetricFns) (schedMetric : String)
    (outputs : List (List ℚ)) (labels : List ℤ) (loss : ℚ) : Except PyErr ℚ :=
  if schedMetric = "loss" then .ok loss
  else
    let logits := outputs.map argmaxRow
    let m := trainerMetricDict mf logits labels
    if schedMetric = "acc" then pyGet m "acc"
    else if schedMetric = "f1" then pyGet m "f1"
    else if schedMetric = "precision" then pyGet m "p"
    else if schedMetric = "recall" then pyGet m "r"
    else .error (.typeError
      ("Plateau LR scheduler has no such type reduce strategy, choose in ["
        ++ pyDictKeysRepr m ++ "]"))

/-- `Trainer.step(outputs, labels, loss)`: plateau schedules go through
`step_Plateau_scheduler` (the fed scalar is returned); any other schedule
advances unconditionally. -/
def trainerStep (mf : MetricFns) (schedType schedMetric : String)
    (outputs : List (List ℚ)) (labels : List ℤ) (loss : ℚ) :
    Except PyErr (Option ℚ) :=
  if schedType = "plateau" then
    (step_Plateau_scheduler mf schedMetric outputs labels loss).map some
  else .ok none

/-- The run configuration fields read by the training loop. -/
structure TrainCfg where
  numEpochs : ℕ
  numBatches : ℕ
  accumSteps : ℕ
  useScheduler : Bool
  stepBetweenBatch : Bool
  stepBetweenEpoch : Bool
  loggingSteps : ℕ
  doAdv : Bool
  schedType : String
  schedMetric : String

/-- The `(outputs, labels, loss_item)` triple a batch produces. -/
structure BatchData where
  outputs : List (List ℚ)
  labels : List ℤ
  lossItem : ℚ

/-- Loop-carried mutable state of `Trainer.train`. -/
structure TrState where
  globalStep : ℕ
  devBestLoss : BestLoss
  bestEvalResults : Option ℚ
deriving DecidableEq, Repr

/-- Observable events of one training run. `logPoint e bb ba saved` records a
call of `Trainer.log`: eval loss `e`, `dev_best_loss` before and after, and
whether the improvement branch ran (`save_pretrained()` and the
`best_eval_results` assignment both live in that branch). -/
inductive Ev where
  | forwardBackward
  | advCycle
  | clipGrad
  | optStep
  | schedStep
  | zeroGrad
  | logPoint (evalLoss : ℚ) (bestBefore bestAfter : BestLoss) (saved : Bool)
deriving DecidableEq, Repr

/-- The fields of a `logPoint` event, if any. -/
def Ev.logData : Ev → Option (ℚ × BestLoss × BestLoss × Bool)
  | .logPoint e bb ba sv => some (e, bb, ba, sv)
  | _ => none

/-- State effect of `Trainer.log` (trainer.py lines 323–328): checkpoint and
record the eval report iff `eval_loss < dev_best_loss`. -/
def logStep (e : ℚ) (s : TrState) : Ev × TrState :=
  if ltBest e s.devBestLoss then
    (.logPoint e s.devBestLoss (.fin e) true,
     { s with devBestLoss := .fin e, bestEvalResults := some e })
  else (.logPoint e s.devBestLoss s.devBestLoss false, s)

/-- `global_step += 1` followed by the periodic-logging check
(trainer.py lines 189–192). -/
def afterStep (cfg : TrainCfg) (el : ℕ → ℚ) (evs : List Ev) (s : TrState) :
    List Ev × TrState × Option PyErr :=
  let s1 : TrState := { s with globalStep := s.globalStep + 1 }
  if 0 < cfg.loggingSteps ∧ s1.globalStep % cfg.loggingSteps = 0 then
    ((evs ++ [(logStep (el s1.globalStep) s1).1]), (logStep (el s1.globalStep) s1).2, none)
  else (evs, s1, none)

/-- One iteration of the batch loop (trainer.py lines 173–194):
`training_step`, optional `do_adv`, and on an accumulation boundary
clip / `optimizer.step()` / the batch-trigger check and schedule advance /
`zero_grad()`; then the step counter and logging. -/
def batchBody (cfg : TrainCfg) (mf : MetricFns) (od : ℕ → BatchData) (el : ℕ → ℚ)
    (step : ℕ) (s : TrState) : List Ev × TrState × Option PyErr :=
  let bd := od s.globalStep
  let evs0 := Ev.forwardBackward :: (if cfg.doAdv then [Ev.advCycle] else [])
  if (step + 1) % cfg.accumSteps = 0 then
    let evs1 := evs0 ++ [Ev.clipGrad, Ev.optStep]
    if cfg.useScheduler = true ∧ cfg.stepBetweenBatch = true then
      if cfg.stepBetweenEpoch = true then
        (evs1, s, some (.typeError
          "step_between_epoch should be False when step_between_batch is True"))
      else
        match trainerStep mf cfg.schedType cfg.schedMetric bd.outputs bd.labels bd.lossItem with
        | .error err => (evs1, s, some err)
        | .ok _ => afterStep cfg el (evs1 ++ [Ev.schedStep, Ev.zeroGrad]) s
    else afterStep cfg el (evs1 ++ [Ev.zeroGrad]) s
  else afterStep cfg el evs0 s

/-- The batch loop over `n` remaining batches starting at enumerate index
`step`; an exception aborts the loop. -/
def runBatches (cfg : TrainCfg) (mf : MetricFns) (od : ℕ → BatchData) (el : ℕ → ℚ) :
    ℕ → ℕ → TrState → List Ev × TrState × Option PyErr
  | _, 0, s => ([], s, none)
  | step, n + 1, s =>
    let r := batchBody cfg mf od el step s
    match r.2.2 with
    | some _ => r
    | none =>
      let r2 := runBatches cfg mf od el (step + 1) n r.2.1
      (r.1 ++ r2.1, r2.2.1, r2.2.2)

/-- End of one epoch (trainer.py lines 195–198): the epoch-trigger check and
schedule advance, using the last completed batch's data. -/
def epochEnd (cfg : TrainCfg) (mf : MetricFns) (od : ℕ → BatchData) (s : TrState) :
    List Ev × TrState × Option PyErr :=
  if cfg.useScheduler = true ∧ cfg.stepBetweenEpoch = true then
    if cfg.stepBetweenBatch = true then
      ([], s, some (.typeError
        "step_between_batch should be False when step_between_epoch is True"))
    else
      match trainerStep mf cfg.schedType cfg.schedMetric (od (s.globalStep - 1)).outputs
          (od (s.globalStep - 1)).labels (od (s.globalStep - 1)).lossItem with
      | .error err => ([], s, some err)
      | .ok _ => ([Ev.schedStep], s, none)
  else ([], s, none)

/-- The epoch loop. -/
def runEpochs (cfg : TrainCfg) (mf : MetricFns) (od : ℕ → BatchData) (el : ℕ → ℚ) :
    ℕ → TrState → List Ev × TrState × Option PyErr
  | 0, s => ([], s, none)
  | n + 1, s =>
    let r := runBatches cfg mf od el 0 cfg.numBatches s
    match r.2.2 with
    | some _ => r
    | none =>
      let re := epochEnd cfg mf od r.2.1
      match re.2.2 with
      | some _ => (r.1 ++ re.1, re.2.1, re.2.2)
      | none =>
        let r2 := runEpochs cfg mf od el n re.2.1
        (r.1 ++ re.1 ++ r2.1, r2.2.1, r2.2.2)

/-- `Trainer.train`'s loop (lines 167–208): `global_step = 0`,
`dev_best_loss = inf`, the epoch loop, and the final unconditional `log`. -/
def runTrain (cfg : TrainCfg) (mf : MetricFns) (od : ℕ → BatchData) (el : ℕ → ℚ) :
    List Ev × TrState × Option PyErr :=
  let s0 : TrState := { globalStep := 0, devBestLoss := .inf, bestEvalResults := none }
  let r := runEpochs cfg mf od el cfg.numEpochs s0
  match r.2.2 with
  | some _ => r
  | none =>
    (r.1 ++ [(logStep (el r.2.1.globalStep) r.2.1).1],
     (logStep (el r.2.1.globalStep) r.2.1).2, none)

deriving instance DecidableEq for Except

/-! ### Claim C2: both schedule triggers -/

lemma afterStep_err (cfg : TrainCfg) (el : ℕ → ℚ) (evs : List Ev) (s : TrState) :
    (afterStep cfg el evs s).2.2 = none := by
  unfold afterStep
  dsimp only
  split <;> rfl

lemma batchBody_exists_tail (cfg : TrainCfg) (mf : MetricFns) (od : ℕ → BatchData)
    (el : ℕ → ℚ) (step : ℕ) (s : TrState) :
    ∃ tail, (batchBody cfg mf od el step s).1 = Ev.forwardBackward :: tail := by
  unfold batchBody afterStep
  dsimp only
  repeat' split
  all_goals exact ⟨_, rfl⟩

lemma batchBody_forward_mem (cfg : TrainCfg) (mf : MetricFns) (od : ℕ → BatchData)
    (el : ℕ → ℚ) (step : ℕ) (s : TrState) :
    Ev.forwardBackward ∈ (batchBody cfg mf od el step s).1 := by
  obtain ⟨tail, h⟩ := batchBody_exists_tail cfg mf od el step s
  rw [h]
  exact List.mem_cons_self _ _

lemma batchBody_both_err (cfg : TrainCfg) (mf : MetricFns) (od : ℕ → BatchData)
    (el : ℕ → ℚ) (step : ℕ) (s : TrState)
    (h1 : cfg.useScheduler = true) (h2 : cfg.stepBetweenBatch = true)
    (h3 : cfg.stepBetweenEpoch = true) :
    (batchBody cfg mf od el step s).2.2
      = if (step + 1) % cfg.accumSteps = 0
        then some (.typeError "step_between_epoch should be False when step_between_batch is True")
        else none := by
  unfold batchBody
  by_cases hb : (step + 1) % cfg.accumSteps = 0
  · simp [hb, h1, h2, h3]
  · simp [hb, afterStep_err]

lemma runBatches_both (cfg : TrainCfg) (mf : MetricFns) (od : ℕ → BatchData)
    (el : ℕ → ℚ) (h1 : cfg.useScheduler = true) (h2 : cfg.stepBetweenBatch = true)
    (h3 : cfg.stepBetweenEpoch = true) :
    ∀ (n step : ℕ) (s : TrState),
      (runBatches cfg mf od el step n s).2.2 = none
      ∨ (runBatches cfg mf od el step n s).2.2
          = some (.typeError "step_between_epoch should be False when step_between_batch is True") := by
  intro n
  induction n with
  | zero => intro step s; left; rfl
  | succ n ih =>
    intro step s
    have hb := batchBody_both_err cfg mf od el step s h1 h2 h3
    by_cases hbd : (step + 1) % cfg.accumSteps = 0
    · rw [if_pos hbd] at hb
      right
      simp only [runBatches, hb]
    · rw [if_neg hbd] at hb
      simp only [runBatches, hb]
      exact ih (step + 1) _

lemma runBatches_forward (cfg : TrainCfg) (mf : MetricFns) (od : ℕ → BatchData)
    (el : ℕ → ℚ) (n step : ℕ) (s : TrState) (hn : 1 ≤ n) :
    Ev.forwardBackward ∈ (runBatches cfg mf od el step n s).1 := by
  cases n with
  | zero => omega
  | succ n =>
    cases h : (batchBody cfg mf od el step s).2.2 with
    | none =>
      simp only [runBatches, h]
      exact List.mem_append_left _ (batchBody_forward_mem cfg mf od el step s)
    | some e =>
      simp only [runBatches, h]
      exact batchBody_forward_mem cfg mf od el step s

lemma epochEnd_both (cfg : TrainCfg) (mf : MetricFns) (od : ℕ → BatchData)
    (s : TrState) (h1 : cfg.useScheduler = true) (h2 : cfg.stepBetweenBatch = true)
    (h3 : cfg.stepBetweenEpoch = true) :
    epochEnd cfg mf od s
      = ([], s, some (.typeError "step_between_batch should be False when step_between_epoch is True")) := by
  unfold epochEnd
  rw [if_pos ⟨h1, h3⟩, if_pos h2]

lemma runEpochs_both (cfg : TrainCfg) (mf : MetricFns) (od : ℕ → BatchData)
    (el : ℕ → ℚ) (h1 : cfg.useScheduler = true) (h2 : cfg.stepBetweenBatch = true)
    (h3 : cfg.stepBetweenEpoch = true) (h5 : 1 ≤ cfg.numBatches) (n : ℕ) (s : TrState) :
    ((runEpochs cfg mf od el (n + 1) s).2.2
        = some (.typeError "step_between_epoch should be False when step_between_batch is True")
      ∨ (runEpochs cfg mf od el (n + 1) s).2.2
        = some (.typeError "step_between_batch should be False when step_between_epoch is True"))
    ∧ Ev.forwardBackward ∈ (runEpochs cfg mf od el (n + 1) s).1 := by
  rcases runBatches_both cfg mf od el h1 h2 h3 cfg.numBatches 0 s with hb | hb
  · have he := epochEnd_both cfg mf od
      (runBatches cfg mf od el 0 cfg.numBatches s).2.1 h1 h2 h3
    refine ⟨Or.inr ?_, ?_⟩
    · simp only [runEpochs, hb, he]
    · simp only [runEpochs, hb, he]
      simp only [List.append_nil]
      exact runBatches_forward cfg mf od el _ 0 s h5
  · refine ⟨Or.inl ?_, ?_⟩
    · simp only [runEpochs, hb]
    · simp only [runEpochs, hb]
      exact runBatches_forward cfg mf od el _ 0 s h5

/-- C2 (amended): configuring both the batch-trigger and the epoch-trigger
makes every run with at least one epoch and one batch fail with one of the
two `TypeError`s — raised at the first schedule-advance point (accumulation
boundary or epoch end), after at least one forward/backward pass has run. -/
theorem both_triggers_raise (cfg : TrainCfg) (mf : MetricFns) (od : ℕ → BatchData)
    (el : ℕ → ℚ) (h1 : cfg.useScheduler = true) (h2 : cfg.stepBetweenBatch = true)
    (h3 : cfg.stepBetweenEpoch = true) (h4 : 1 ≤ cfg.numEpochs) (h5 : 1 ≤ cfg.numBatches) :
    ((runTrain cfg mf od el).2.2
        = some (.typeError "step_between_epoch should be False when step_between_batch is True")
      ∨ (runTrain cfg mf od el).2.2
        = some (.typeError "step_between_batch should be False when step_between_epoch is True"))
    ∧ Ev.forwardBackward ∈ (runTrain cfg mf od el).1 := by
  obtain ⟨k, hk⟩ : ∃ k, cfg.numEpochs = k + 1 := ⟨cfg.numEpochs - 1, by omega⟩
  have he := runEpochs_both cfg mf od el h1 h2 h3 h5 k
    { globalStep := 0, devBestLoss := .inf, bestEvalResults := none }
  rcases he.1 with hbe | hbe
  · refine ⟨Or.inl ?_, ?_⟩
    · simp only [runTrain, hk, hbe]
    · simp only [runTrain, hk, hbe]
      exact he.2
  · refine ⟨Or.inr ?_, ?_⟩
    · simp only [runTrain, hk, hbe]
    · simp only [runTrain, hk, hbe]
      exact he.2

/-- Constant external collaborators for concrete runs. -/
def mfC : MetricFns := ⟨fun _ _ => 0, fun _ _ => 0, fun _ _ => 0, fun _ _ => 0⟩

/-- A constant batch oracle. -/
def odC : ℕ → BatchData := fun _ => ⟨[[0, 1]], [0], 1⟩

/-- A constant eval-loss oracle. -/
def elC : ℕ → ℚ := fun _ => 1

/-- One epoch, one batch, no accumulation, both schedule triggers set. -/
def cfgBoth : TrainCfg := ⟨1, 1, 1, true, true, true, 0, false, "linear", "loss"⟩

/-- C2 is false as stated: with both triggers set, the `TypeError` is only
raised inside the training loop, at the first accumulation boundary — after
the first forward/backward pass and the first `optimizer.step()` have already
executed.  The concrete run's trace contains `forwardBackward` and `optStep`
before the error. -/
theorem both_triggers_after_steps_cex :
    (runTrain cfgBoth mfC odC elC).1 = [Ev.forwardBackward, Ev.clipGrad, Ev.optStep]
    ∧ (runTrain cfgBoth mfC odC elC).2.2
        = some (.typeError "step_between_epoch should be False when step_between_batch is True")
    ∧ Ev.forwardBackward ∈ (runTrain cfgBoth mfC odC elC).1
    ∧ Ev.optStep ∈ (runTrain cfgBoth mfC odC elC).1 := by decide

/-- Witness for C2 (amended). -/
theorem both_triggers_raise_witness :
    ((runTrain cfgBoth mfC odC elC).2.2
        = some (.typeError "step_between_epoch should be False when step_between_batch is True")
      ∨ (runTrain cfgBoth mfC odC elC).2.2
        = some (.typeError "step_between_batch should be False when step_between_epoch is True"))
    ∧ Ev.forwardBackward ∈ (runTrain cfgBoth mfC odC elC).1 :=
  both_triggers_raise cfgBoth mfC odC elC rfl rfl rfl (by decide) (by decide)

/-! ### Claim C3: best-loss monotonicity and save-iff-improvement -/

/-- Checker for the sequence of `logPoint` events in a trace: starting from
best value `b`, every log entry's `bestBefore` must equal the running best,
its `bestAfter` must be the minimum of the eval loss and the running best,
and its `saved` flag must be set exactly on strict improvement; `bf` is the
final best value. -/
def logChainOk (b : BestLoss) : List Ev → BestLoss → Bool
  | [], bf => decide (b = bf)
  | ev :: t, bf =>
    match ev.logData with
    | none => logChainOk b t bf
    | some (e, bb, ba, sv) =>
      decide (bb = b) && decide (ba = if ltBest e b then BestLoss.fin e else b)
        && (sv == ltBest e b) && logChainOk ba t bf

/-- The successive `dev_best_loss` values after each log point of a trace. -/
def bestsOf (t : List Ev) : List BestLoss :=
  t.filterMap (fun ev => (Ev.logData ev).map (fun x => x.2.2.1))

/-- A trace segment is consistent with the best-loss discipline between two
states. -/
def SegOk (evs : List Ev) (s s' : TrState) : Prop :=
  logChainOk s.devBestLoss evs s'.devBestLoss = true

lemma logChainOk_cons_none (ev : Ev) (t : List Ev) (b bf : BestLoss)
    (h : ev.logData = none) : logChainOk b (ev :: t) bf = logChainOk b t bf := by
  conv_lhs => unfold logChainOk
  rw [h]

lemma logChainOk_cons_log (e : ℚ) (bb ba : BestLoss) (sv : Bool) (t : List Ev)
    (b bf : BestLoss) :
    logChainOk b (Ev.logPoint e bb ba sv :: t) bf
      = (decide (bb = b) && decide (ba = if ltBest e b then BestLoss.fin e else b)
          && (sv == ltBest e b) && logChainOk ba t bf) := rfl

lemma logChainOk_nolog (t : List Ev) (h : ∀ e ∈ t, Ev.logData e = none) :
    ∀ (t2 : List Ev) (b bf : BestLoss),
      logChainOk b (t ++ t2) bf = logChainOk b t2 bf := by
  induction t with
  | nil => intro t2 b bf; rfl
  | cons ev r ih =>
    intro t2 b bf
    rw [List.cons_append, logChainOk_cons_none ev _ b bf (h ev (List.mem_cons_self ev r))]
    exact ih (fun e he => h e (List.mem_cons_of_mem ev he)) t2 b bf

lemma logChainOk_refl (b : BestLoss) : logChainOk b [] b = true := by
  simp [logChainOk]

lemma segOk_nolog (evs : List Ev) (s : TrState)
    (h : ∀ e ∈ evs, Ev.logData e = none) : SegOk evs s s := by
  unfold SegOk
  have := logChainOk_nolog evs h [] s.devBestLoss s.devBestLoss
  rw [List.append_nil] at this
  rw [this]
  exact logChainOk_refl _

lemma logChainOk_append (t1 : List Ev) :
    ∀ (t2 : List Ev) (b1 b2 b3 : BestLoss),
      logChainOk b1 t1 b2 = true → logChainOk b2 t2 b3 = true →
      logChainOk b1 (t1 ++ t2) b3 = true := by
  induction t1 with
  | nil =>
    intro t2 b1 b2 b3 h1 h2
    have : b1 = b2 := of_decide_eq_true h1
    subst this
    simpa using h2
  | cons ev r ih =>
    intro t2 b1 b2 b3 h1 h2
    cases ev
    case logPoint e' bb' ba' sv' =>
      rw [logChainOk_cons_log] at h1
      simp only [Bool.and_eq_true] at h1
      obtain ⟨⟨⟨ha, hb⟩, hc⟩, hd⟩ := h1
      rw [List.cons_append, logChainOk_cons_log]
      simp only [Bool.and_eq_true]
      exact ⟨⟨⟨ha, hb⟩, hc⟩, ih t2 ba' b2 b3 hd h2⟩
    all_goals
      rw [logChainOk_cons_none _ _ _ _ (by rfl)] at h1
      rw [List.cons_append, logChainOk_cons_none _ _ _ _ (by rfl)]
      exact ih t2 b1 b2 b3 h1 h2

lemma segOk_append (t1 t2 : List Ev) (s1 s2 s3 : TrState)
    (h1 : SegOk t1 s1 s2) (h2 : SegOk t2 s2 s3) : SegOk (t1 ++ t2) s1 s3 :=
  logChainOk_append t1 t2 _ _ _ h1 h2

lemma logStep_chainOk (e : ℚ) (s : TrState) :
    logChainOk s.devBestLoss [(logStep e s).1] (logStep e s).2.devBestLoss = true := by
  unfold logStep
  by_cases h : ltBest e s.devBestLoss
  · simp [h, logChainOk, Ev.logData]
  · simp [h, logChainOk, Ev.logData]

lemma afterStep_seg (cfg : TrainCfg) (el : ℕ → ℚ) (evs : List Ev) (s : TrState)
    (h : ∀ e ∈ evs, Ev.logData e = none) :
    SegOk (afterStep cfg el evs s).1 s (afterStep cfg el evs s).2.1 := by
  unfold afterStep SegOk
  dsimp only
  split
  · rw [logChainOk_nolog evs h]
    exact logStep_chainOk _ _
  · exact segOk_nolog evs s h

lemma batchBody_seg (cfg : TrainCfg) (mf : MetricFns) (od : ℕ → BatchData)
    (el : ℕ → ℚ) (step : ℕ) (s : TrState) :
    SegOk (batchBody cfg mf od el step s).1 s (batchBody cfg mf od el step s).2.1 := by
  unfold batchBody
  dsimp only
  repeat' split
  all_goals (try dsimp only)
  all_goals first
    | exact afterStep_seg cfg el _ s (by decide)
    | exact segOk_nolog _ s (by decide)

lemma runBatches_seg (cfg : TrainCfg) (mf : MetricFns) (od : ℕ → BatchData)
    (el : ℕ → ℚ) : ∀ (n step : ℕ) (s : TrState),
    SegOk (runBatches cfg mf od el step n s).1 s (runBatches cfg mf od el step n s).2.1 := by
  intro n
  induction n with
  | zero => intro step s; exact segOk_nolog [] s (by decide)
  | succ n ih =>
    intro step s
    cases h : (batchBody cfg mf od el step s).2.2 with
    | none =>
      simp only [runBatches, h]
      exact segOk_append _ _ s _ _ (batchBody_seg cfg mf od el step s) (ih (step + 1) _)
    | some e =>
      simp only [runBatches, h]
      exact batchBody_seg cfg mf od el step s

lemma epochEnd_seg (cfg : TrainCfg) (mf : MetricFns) (od : ℕ → BatchData) (s : TrState) :
    SegOk (epochEnd cfg mf od s).1 s (epochEnd cfg mf od s).2.1 := by
  unfold epochEnd
  repeat' split
  all_goals (try dsimp only)
  all_goals exact segOk_nolog _ s (by decide)

lemma runEpochs_seg (cfg : TrainCfg) (mf : MetricFns) (od : ℕ → BatchData)
    (el : ℕ → ℚ) : ∀ (n : ℕ) (s : TrState),
    SegOk (runEpochs cfg mf od el n s).1 s (runEpochs cfg mf od el n s).2.1 := by
  intro n
  induction n with
  | zero => intro s; exact segOk_nolog [] s (by decide)
  | succ n ih =>
    intro s
    cases h : (runBatches cfg mf od el 0 cfg.numBatches s).2.2 with
    | some e =>
      simp only [runEpochs, h]
      exact runBatches_seg cfg mf od el cfg.numBatches 0 s
    | none =>
      cases h2 : (epochEnd cfg mf od (runBatches cfg mf od el 0 cfg.numBatches s).2.1).2.2 with
      | some e =>
        simp only [runEpochs, h, h2]
        exact segOk_append _ _ s _ _ (runBatches_seg cfg mf od el cfg.numBatches 0 s)
          (epochEnd_seg cfg mf od _)
      | none =>
        simp only [runEpochs, h, h2]
        rw [List.append_assoc]
        exact segOk_append _ _ s _ _ (runBatches_seg cfg mf od el cfg.numBatches 0 s)
          (segOk_append _ _ _ _ _ (epochEnd_seg cfg mf od _) (ih _))

lemma runTrain_seg (cfg : TrainCfg) (mf : MetricFns) (od : ℕ → BatchData) (el : ℕ → ℚ) :
    logChainOk BestLoss.inf (runTrain cfg mf od el).1
      (runTrain cfg mf od el).2.1.devBestLoss = true := by
  cases h : (runEpochs cfg mf od el cfg.numEpochs
      { globalStep := 0, devBestLoss := .inf, bestEvalResults := none }).2.2 with
  | some e =>
    simp only [runTrain, h]
    exact runEpochs_seg cfg mf od el cfg.numEpochs
      { globalStep := 0, devBestLoss := .inf, bestEvalResults := none }
  | none =>
    simp only [runTrain, h]
    exact logChainOk_append _ _ _
      ((runEpochs cfg mf od el cfg.numEpochs
        { globalStep := 0, devBestLoss := .inf, bestEvalResults := none }).2.1.devBestLoss) _
      (runEpochs_seg cfg mf od el cfg.numEpochs
        { globalStep := 0, devBestLoss := .inf, bestEvalResults := none })
      (logStep_chainOk _ _)

lemma bestLE_update (e : ℚ) (bb : BestLoss) :
    bestLE (if ltBest e bb then BestLoss.fin e else bb) bb = true := by
  cases bb with
  | inf => by_cases h : ltBest e .inf <;> simp [h, bestLE]
  | fin q =>
    by_cases h : ltBest e (.fin q)
    · rw [if_pos h]
      unfold ltBest at h
      unfold bestLE
      exact decide_eq_true (le_of_lt (of_decide_eq_true h))
    · rw [if_neg h]
      unfold bestLE
      exact decide_eq_true le_rfl

lemma logChainOk_entries : ∀ (t : List Ev) (b bf : BestLoss), logChainOk b t bf = true →
    ∀ (e : ℚ) (bb ba : BestLoss) (sv : Bool), Ev.logPoint e bb ba sv ∈ t →
      sv = ltBest e bb ∧ ba = (if ltBest e bb then BestLoss.fin e else bb)
      ∧ bestLE ba bb = true := by
  intro t
  induction t with
  | nil => intro b bf _ e bb ba sv h; cases h
  | cons ev r ih =>
    intro b bf hok e bb ba sv hmem
    cases ev
    case logPoint e' bb' ba' sv' =>
      rw [logChainOk_cons_log] at hok
      simp only [Bool.and_eq_true] at hok
      obtain ⟨⟨⟨ha, hb⟩, hc⟩, hd⟩ := hok
      rcases List.mem_cons.mp hmem with h | h
      · injection h with h1 h2 h3 h4
        subst h1; subst h2; subst h3; subst h4
        have hbb : bb = b := of_decide_eq_true ha
        subst hbb
        refine ⟨eq_of_beq hc, of_decide_eq_true hb, ?_⟩
        rw [of_decide_eq_true hb]
        exact bestLE_update e bb
      · exact ih ba' bf hd e bb ba sv h
    all_goals
      rw [logChainOk_cons_none _ _ _ _ (by rfl)] at hok
      rcases List.mem_cons.mp hmem with h | h
      · exact Ev.noConfusion h
      · exact ih b bf hok e bb ba sv h

lemma bestsOf_cons_none (ev : Ev) (t : List Ev) (h : ev.logData = none) :
    bestsOf (ev :: t) = bestsOf t := by
  simp [bestsOf, h]

lemma bestsOf_cons_log (e : ℚ) (bb ba : BestLoss) (sv : Bool) (t : List Ev) :
    bestsOf (Ev.logPoint e bb ba sv :: t) = ba :: bestsOf t := by
  simp [bestsOf, Ev.logData]

lemma logChainOk_chain : ∀ (t : List Ev) (b bf : BestLoss), logChainOk b t bf = true →
    List.Chain' (fun x y => bestLE y x = true) (b :: bestsOf t) := by
  intro t
  induction t with
  | nil => intro b bf _; simp [bestsOf]
  | cons ev r ih =>
    intro b bf hok
    cases ev
    case logPoint e' bb' ba' sv' =>
      rw [logChainOk_cons_log] at hok
      simp only [Bool.and_eq_true] at hok
      obtain ⟨⟨⟨ha, hb⟩, hc⟩, hd⟩ := hok
      rw [bestsOf_cons_log, List.chain'_cons]
      constructor
      · rw [of_decide_eq_true hb]
        exact bestLE_update e' b
      · exact ih ba' bf hd
    all_goals
      rw [logChainOk_cons_none _ _ _ _ (by rfl)] at hok
      rw [bestsOf_cons_none _ _ (by rfl)]
      exact ih b bf hok

lemma logStep_bestEval (e : ℚ) (s : TrState)
    (h : (logStep e s).2.bestEvalResults ≠ s.bestEvalResults) :
    ltBest e s.devBestLoss = true := by
  by_cases hl : ltBest e s.devBestLoss
  · exact hl
  · exfalso
    apply h
    unfold logStep
    rw [if_neg hl]

/-- C3: over any run, `dev_best_loss` starts at `+∞` and the log-point chain
is valid (`logChainOk`): each log point's prior best is the running best, the
best is updated to the eval loss exactly when it strictly improves, a best
checkpoint is written (`saved`) iff the eval loss is strictly below the
prior best, the sequence of best values is non-increasing, and
`best_eval_results` changes only on improvement. -/
theorem best_loss_monotone_save_iff (cfg : TrainCfg) (mf : MetricFns)
    (od : ℕ → BatchData) (el : ℕ → ℚ) :
    logChainOk BestLoss.inf (runTrain cfg mf od el).1
      (runTrain cfg mf od el).2.1.devBestLoss = true
    ∧ (∀ (e : ℚ) (bb ba : BestLoss) (sv : Bool),
        Ev.logPoint e bb ba sv ∈ (runTrain cfg mf od el).1 →
          (sv = true ↔ ltBest e bb = true)
          ∧ ba = (if ltBest e bb then BestLoss.fin e else bb)
          ∧ bestLE ba bb = true)
    ∧ List.Chain' (fun x y => bestLE y x = true)
        (BestLoss.inf :: bestsOf (runTrain cfg mf od el).1)
    ∧ (∀ (e : ℚ) (s : TrState),
        (logStep e s).2.bestEvalResults ≠ s.bestEvalResults →
          ltBest e s.devBestLoss = true) := by
  have h1 := runTrain_seg cfg mf od el
  refine ⟨h1, ?_, logChainOk_chain _ _ _ h1, fun e s => logStep_bestEval e s⟩
  intro e bb ba sv hmem
  have h2 := logChainOk_entries _ _ _ h1 e bb ba sv hmem
  exact ⟨by rw [h2.1], h2.2.1, h2.2.2⟩

/-- One epoch, two batches, logging at every step. -/
def cfgLog : TrainCfg := ⟨1, 2, 1, false, false, false, 1, false, "linear", "loss"⟩

/-- Eval losses 5 then 7: one improvement, then none. -/
def elLog : ℕ → ℚ := fun g => if g = 1 then 5 else 7

/-- Witness for C3: concrete run with an improving and a non-improving log
point; the non-improving point has `saved = false`. -/
theorem best_loss_monotone_save_iff_witness :
    logChainOk BestLoss.inf (runTrain cfgLog mfC odC elLog).1
      (runTrain cfgLog mfC odC elLog).2.1.devBestLoss = true
    ∧ Ev.logPoint 7 (BestLoss.fin 5) (BestLoss.fin 5) false ∈ (runTrain cfgLog mfC odC elLog).1
    ∧ (false = true ↔ ltBest 7 (BestLoss.fin 5) = true) := by
  have h := best_loss_monotone_save_iff cfgLog mfC odC elLog
  have hm : Ev.logPoint 7 (BestLoss.fin 5) (BestLoss.fin 5) false
      ∈ (runTrain cfgLog mfC odC elLog).1 := by decide
  exact ⟨h.1, hm, (h.2.1 7 _ _ false hm).1⟩

/-! ### Claim C4: accumulation invariant -/

/-- Occurrences of one event in a trace. -/
def countEv (x : Ev) : List Ev → ℕ
  | [] => 0
  | e :: t => (if e = x then 1 else 0) + countEv x t

lemma countEv_append (x : Ev) (t1 t2 : List Ev) :
    countEv x (t1 ++ t2) = countEv x t1 + countEv x t2 := by
  induction t1 with
  | nil => simp [countEv]
  | cons e t ih => simp [countEv, ih, Nat.add_assoc]

/-- No `zeroGrad` occurs before the first `optStep` of the trace. -/
def noZeroBeforeOpt : List Ev → Bool
  | [] => true
  | Ev.optStep :: _ => true
  | Ev.zeroGrad :: _ => false
  | _ :: t => noZeroBeforeOpt t

lemma noZero_snoc : ∀ (t : List Ev) (x : Ev), x ≠ Ev.zeroGrad →
    noZeroBeforeOpt (t ++ [x]) = noZeroBeforeOpt t := by
  intro t
  induction t with
  | nil =>
    intro x hx
    cases x <;> first | rfl | exact absurd rfl hx
  | cons e r ih =>
    intro x hx
    cases e <;> first | rfl | (simp only [List.cons_append]; exact ih x hx)

lemma noZero_append_clean : ∀ (t1 t2 : List Ev),
    countEv Ev.optStep t1 = 0 → countEv Ev.zeroGrad t1 = 0 →
    noZeroBeforeOpt (t1 ++ t2) = noZeroBeforeOpt t2 := by
  intro t1
  induction t1 with
  | nil => intro t2 _ _; rfl
  | cons e r ih =>
    intro t2 h1 h2
    unfold countEv at h1 h2
    cases e
    case optStep => rw [if_pos rfl] at h1; omega
    case zeroGrad => rw [if_pos rfl] at h2; omega
    all_goals
      rw [if_neg (by simp), Nat.zero_add] at h1 h2
      simp only [List.cons_append]
      exact ih t2 h1 h2

lemma logStep_gs (e : ℚ) (s : TrState) : (logStep e s).2.globalStep = s.globalStep := by
  unfold logStep; split <;> rfl

lemma logStep_shape (e : ℚ) (s : TrState) :
    ∃ a b c d, (logStep e s).1 = Ev.logPoint a b c d := by
  unfold logStep; split
  · exact ⟨_, _, _, _, rfl⟩
  · exact ⟨_, _, _, _, rfl⟩

lemma afterStep_c4 (cfg : TrainCfg) (el : ℕ → ℚ) (evs : List Ev) (s : TrState) :
    (afterStep cfg el evs s).2.2 = none
    ∧ (afterStep cfg el evs s).2.1.globalStep = s.globalStep + 1
    ∧ countEv Ev.optStep (afterStep cfg el evs s).1 = countEv Ev.optStep evs
    ∧ countEv Ev.schedStep (afterStep cfg el evs s).1 = countEv Ev.schedStep evs
    ∧ countEv Ev.zeroGrad (afterStep cfg el evs s).1 = countEv Ev.zeroGrad evs
    ∧ noZeroBeforeOpt (afterStep cfg el evs s).1 = noZeroBeforeOpt evs := by
  unfold afterStep
  dsimp only
  split
  · obtain ⟨a, b, c, d, hl⟩ := logStep_shape
      (el (s.globalStep + 1))
      { s with globalStep := s.globalStep + 1 }
    refine ⟨rfl, ?_, ?_, ?_, ?_, ?_⟩
    · rw [logStep_gs]
    · rw [countEv_append, hl]; simp [countEv]
    · rw [countEv_append, hl]; simp [countEv]
    · rw [countEv_append, hl]; simp [countEv]
    · exact noZero_snoc evs _ (by rw [hl]; simp)
  · exact ⟨rfl, rfl, rfl, rfl, rfl, rfl⟩

lemma batchBody_c4 (cfg : TrainCfg) (mf : MetricFns) (od : ℕ → BatchData) (el : ℕ → ℚ)
    (step : ℕ) (s : TrState)
    (hv : ¬(cfg.useScheduler = true ∧ cfg.stepBetweenBatch = true
            ∧ cfg.stepBetweenEpoch = true))
    (hok : ∀ n, ∃ v, trainerStep mf cfg.schedType cfg.schedMetric (od n).outputs
            (od n).labels (od n).lossItem = Except.ok v) :
    (batchBody cfg mf od el step s).2.2 = none
    ∧ (batchBody cfg mf od el step s).2.1.globalStep = s.globalStep + 1
    ∧ countEv Ev.optStep (batchBody cfg mf od el step s).1
        = (if (step + 1) % cfg.accumSteps = 0 then 1 else 0)
    ∧ countEv Ev.schedStep (batchBody cfg mf od el step s).1
        ≤ (if (step + 1) % cfg.accumSteps = 0 then 1 else 0)
    ∧ countEv Ev.zeroGrad (batchBody cfg mf od el step s).1
        = (if (step + 1) % cfg.accumSteps = 0 then 1 else 0)
    ∧ noZeroBeforeOpt (batchBody cfg mf od el step s).1 = true := by
  obtain ⟨v, hstep⟩ := hok s.globalStep
  unfold batchBody
  dsimp only
  by_cases hb : (step + 1) % cfg.accumSteps = 0
  · simp only [hb, if_true, if_pos trivial]
    by_cases hsch : cfg.useScheduler = true ∧ cfg.stepBetweenBatch = true
    · have hsbe : ¬ cfg.stepBetweenEpoch = true := fun hc => hv ⟨hsch.1, hsch.2, hc⟩
      rw [if_pos hsch, if_neg hsbe, hstep]
      have h := afterStep_c4 cfg el
        ((Ev.forwardBackward :: (if cfg.doAdv = true then [Ev.advCycle] else []))
          ++ [Ev.clipGrad, Ev.optStep] ++ [Ev.schedStep, Ev.zeroGrad]) s
      refine ⟨h.1, h.2.1, ?_, ?_, ?_, ?_⟩
      · rw [h.2.2.1]
        by_cases hadv : cfg.doAdv = true <;> simp [hadv, countEv, countEv_append]
      · rw [h.2.2.2.1]
        by_cases hadv : cfg.doAdv = true <;> simp [hadv, countEv, countEv_append]
      · rw [h.2.2.2.2.1]
        by_cases hadv : cfg.doAdv = true <;> simp [hadv, countEv, countEv_append]
      · rw [h.2.2.2.2.2]
        by_cases hadv : cfg.doAdv = true <;> simp [hadv, noZeroBeforeOpt]
    · rw [if_neg hsch]
      have h := afterStep_c4 cfg el
        ((Ev.forwardBackward :: (if cfg.doAdv = true then [Ev.advCycle] else []))
          ++ [Ev.clipGrad, Ev.optStep] ++ [Ev.zeroGrad]) s
      refine ⟨h.1, h.2.1, ?_, ?_, ?_, ?_⟩
      · rw [h.2.2.1]
        by_cases hadv : cfg.doAdv = true <;> simp [hadv, countEv, countEv_append]
      · rw [h.2.2.2.1]
        by_cases hadv : cfg.doAdv = true <;> simp [hadv, countEv, countEv_append]
      · rw [h.2.2.2.2.1]
        by_cases hadv : cfg.doAdv = true <;> simp [hadv, countEv, countEv_append]
      · rw [h.2.2.2.2.2]
        by_cases hadv : cfg.doAdv = true <;> simp [hadv, noZeroBeforeOpt]
  · simp only [hb, if_false]
    have h := afterStep_c4 cfg el
      (Ev.forwardBackward :: (if cfg.doAdv = true then [Ev.advCycle] else [])) s
    refine ⟨h.1, h.2.1, ?_, ?_, ?_, ?_⟩
    · rw [h.2.2.1]
      by_cases hadv : cfg.doAdv = true <;> simp [hadv, countEv]
    · rw [h.2.2.2.1]
      by_cases hadv : cfg.doAdv = true <;> simp [hadv, countEv]
    · rw [h.2.2.2.2.1]
      by_cases hadv : cfg.doAdv = true <;> simp [hadv, countEv]
    · rw [h.2.2.2.2.2]
      by_cases hadv : cfg.doAdv = true <;> simp [hadv, noZeroBeforeOpt]

lemma runBatches_succ_err (cfg : TrainCfg) (mf : MetricFns) (od : ℕ → BatchData)
    (el : ℕ → ℚ) (step n : ℕ) (s : TrState) (e : PyErr)
    (h : (batchBody cfg mf od el step s).2.2 = some e) :
    runBatches cfg mf od el step (n + 1) s = batchBody cfg mf od el step s := by
  simp only [runBatches, h]

lemma runBatches_succ_ok (cfg : TrainCfg) (mf : MetricFns) (od : ℕ → BatchData)
    (el : ℕ → ℚ) (step n : ℕ) (s : TrState)
    (h : (batchBody cfg mf od el step s).2.2 = none) :
    runBatches cfg mf od el step (n + 1) s
      = ((batchBody cfg mf od el step s).1
            ++ (runBatches cfg mf od el (step + 1) n (batchBody cfg mf od el step s).2.1).1,
         (runBatches cfg mf od el (step + 1) n (batchBody cfg mf od el step s).2.1).2.1,
         (runBatches cfg mf od el (step + 1) n (batchBody cfg mf od el step s).2.1).2.2) := by
  simp only [runBatches, h]

lemma runBatches_window (cfg : TrainCfg) (mf : MetricFns) (od : ℕ → BatchData)
    (el : ℕ → ℚ)
    (hv : ¬(cfg.useScheduler = true ∧ cfg.stepBetweenBatch = true
            ∧ cfg.stepBetweenEpoch = true))
    (hok : ∀ n, ∃ v, trainerStep mf cfg.schedType cfg.schedMetric (od n).outputs
            (od n).labels (od n).lossItem = Except.ok v) :
    ∀ (n a : ℕ) (s : TrState), 1 ≤ n →
      (∀ i, i < n → (((a + i + 1) % cfg.accumSteps = 0) ↔ i = n - 1)) →
      (runBatches cfg mf od el a n s).2.2 = none
      ∧ countEv Ev.optStep (runBatches cfg mf od el a n s).1 = 1
      ∧ countEv Ev.schedStep (runBatches cfg mf od el a n s).1 ≤ 1
      ∧ countEv Ev.zeroGrad (runBatches cfg mf od el a n s).1 = 1
      ∧ noZeroBeforeOpt (runBatches cfg mf od el a n s).1 = true
      ∧ (runBatches cfg mf od el a n s).2.1.globalStep = s.globalStep + n := by
  intro n
  induction n with
  | zero => intro a s hn; omega
  | succ n ih =>
    intro a s _ hcond
    have hbody := batchBody_c4 cfg mf od el a s hv hok
    cases n with
    | zero =>
      have hb : (a + 1) % cfg.accumSteps = 0 := by
        have := (hcond 0 (by omega)).mpr rfl
        simpa using this
      rw [if_pos hb] at hbody
      rw [runBatches_succ_ok cfg mf od el a 0 s hbody.1]
      simp only [runBatches]
      rw [List.append_nil]
      exact ⟨trivial, hbody.2.2.1, hbody.2.2.2.1, hbody.2.2.2.2.1, hbody.2.2.2.2.2, hbody.2.1⟩
    | succ m =>
      have hb : ¬ ((a + 1) % cfg.accumSteps = 0) := by
        intro hc
        have := (hcond 0 (by omega)).mp (by simpa using hc)
        omega
      rw [if_neg hb] at hbody
      have hcond2 : ∀ i, i < m + 1 →
          (((a + 1 + i + 1) % cfg.accumSteps = 0) ↔ i = m) := by
        intro i hi
        have h2 := hcond (i + 1) (by omega)
        rw [show a + (i + 1) + 1 = a + 1 + i + 1 by omega] at h2
        rw [h2]
        omega
      have hrec := ih (a + 1) (batchBody cfg mf od el a s).2.1 (by omega) hcond2
      rw [runBatches_succ_ok cfg mf od el a (m + 1) s hbody.1]
      refine ⟨hrec.1, ?_, ?_, ?_, ?_, ?_⟩
      · rw [countEv_append, hbody.2.2.1, hrec.2.1]
      · rw [countEv_append]
        have h1 := hbody.2.2.2.1
        have h2 := hrec.2.2.1
        omega
      · rw [countEv_append, hbody.2.2.2.2.1, hrec.2.2.2.1]
      · rw [noZero_append_clean _ _ hbody.2.2.1 hbody.2.2.2.2.1]
        exact hrec.2.2.2.2.1
      · rw [hrec.2.2.2.2.2, hbody.2.1]
        omega

lemma group_window_cond (k m : ℕ) (hk : 1 ≤ k) :
    ∀ i, i < k → (((m * k + i + 1) % k = 0) ↔ i = k - 1) := by
  intro i hi
  have hmod : (m * k + i + 1) % k = (i + 1) % k := by
    rw [show m * k + i + 1 = i + 1 + m * k by omega]
    exact Nat.add_mul_mod_self_right (i + 1) m k
  rw [hmod]
  constructor
  · intro h
    have hdvd : k ∣ (i + 1) := Nat.dvd_of_mod_eq_zero h
    have hle : k ≤ i + 1 := Nat.le_of_dvd (by omega) hdvd
    omega
  · intro h
    rw [h, show k - 1 + 1 = k by omega, Nat.mod_self]

/-- The spec's scenario: accumulation factor 2, 4 batches, one epoch, no
adversarial training. -/
def cfg4 : TrainCfg := ⟨1, 4, 2, false, false, false, 0, false, "linear", "loss"⟩

/-- C4: in any group of `k = accumSteps` consecutive batches ending at an
accumulation boundary, exactly one optimizer step and at most one schedule
advance occur, no `zero_grad` happens before that boundary's optimizer step,
and the global step counter grows by one per batch; and in the concrete
scenario (k = 2, 4 batches, one epoch) the run performs exactly 2 optimizer
steps and ends with `global_step = 4`. -/
theorem accumulation_invariant (cfg : TrainCfg) (mf : MetricFns) (od : ℕ → BatchData)
    (el : ℕ → ℚ) (s : TrState) (m : ℕ)
    (hk : 1 ≤ cfg.accumSteps)
    (hv : ¬(cfg.useScheduler = true ∧ cfg.stepBetweenBatch = true
            ∧ cfg.stepBetweenEpoch = true))
    (hok : ∀ n, ∃ v, trainerStep mf cfg.schedType cfg.schedMetric (od n).outputs
            (od n).labels (od n).lossItem = Except.ok v) :
    ((runBatches cfg mf od el (m * cfg.accumSteps) cfg.accumSteps s).2.2 = none
     ∧ countEv Ev.optStep
         (runBatches cfg mf od el (m * cfg.accumSteps) cfg.accumSteps s).1 = 1
     ∧ countEv Ev.schedStep
         (runBatches cfg mf od el (m * cfg.accumSteps) cfg.accumSteps s).1 ≤ 1
     ∧ countEv Ev.zeroGrad
         (runBatches cfg mf od el (m * cfg.accumSteps) cfg.accumSteps s).1 = 1
     ∧ noZeroBeforeOpt
         (runBatches cfg mf od el (m * cfg.accumSteps) cfg.accumSteps s).1 = true
     ∧ (runBatches cfg mf od el (m * cfg.accumSteps) cfg.accumSteps s).2.1.globalStep
         = s.globalStep + cfg.accumSteps)
    ∧ (countEv Ev.optStep (runTrain cfg4 mfC odC elC).1 = 2
       ∧ (runTrain cfg4 mfC odC elC).2.1.globalStep = 4
       ∧ (runTrain cfg4 mfC odC elC).2.2 = none) := by
  constructor
  · exact runBatches_window cfg mf od el hv hok cfg.accumSteps (m * cfg.accumSteps) s hk
      (group_window_cond cfg.accumSteps m hk)
  · exact ⟨by decide, by decide, by decide⟩

/-- Witness for C4 at the first group of the scenario configuration. -/
theorem accumulation_invariant_witness :
    ((runBatches cfg4 mfC odC elC (0 * cfg4.accumSteps) cfg4.accumSteps
        { globalStep := 0, devBestLoss := .inf, bestEvalResults := none }).2.2 = none
     ∧ countEv Ev.optStep (runBatches cfg4 mfC odC elC (0 * cfg4.accumSteps) cfg4.accumSteps
        { globalStep := 0, devBestLoss := .inf, bestEvalResults := none }).1 = 1
     ∧ countEv Ev.schedStep (runBatches cfg4 mfC odC elC (0 * cfg4.accumSteps) cfg4.accumSteps
        { globalStep := 0, devBestLoss := .inf, bestEvalResults := none }).1 ≤ 1
     ∧ countEv Ev.zeroGrad (runBatches cfg4 mfC odC elC (0 * cfg4.accumSteps) cfg4.accumSteps
        { globalStep := 0, devBestLoss := .inf, bestEvalResults := none }).1 = 1
     ∧ noZeroBeforeOpt (runBatches cfg4 mfC odC elC (0 * cfg4.accumSteps) cfg4.accumSteps
        { globalStep := 0, devBestLoss := .inf, bestEvalResults := none }).1 = true
     ∧ (runBatches cfg4 mfC odC elC (0 * cfg4.accumSteps) cfg4.accumSteps
        { globalStep := 0, devBestLoss := .inf, bestEvalResults := none }).2.1.globalStep
         = ({ globalStep := 0, devBestLoss := .inf, bestEvalResults := none } : TrState).globalStep
            + cfg4.accumSteps)
    ∧ (countEv Ev.optStep (runTrain cfg4 mfC odC elC).1 = 2
       ∧ (runTrain cfg4 mfC odC elC).2.1.globalStep = 4
       ∧ (runTrain cfg4 mfC odC elC).2.2 = none) :=
  accumulation_invariant cfg4 mfC odC elC
    { globalStep := 0, devBestLoss := .inf, bestEvalResults := none } 0
    (by decide) (by decide) (fun n => ⟨none, rfl⟩)

/-! ### Claims C5 and C6: plateau-schedule metric dispatch -/

/-- The exact `TypeError` message raised for an unknown plateau metric
(`'... choose in [{}]'.format(m.keys())`). -/
def plateauMsg : String :=
  "Plateau LR scheduler has no such type reduce strategy, choose in [dict_keys(['acc', 'f1', 'precision', 'recall'])]"

lemma plateau_unknown_eval (mf : MetricFns) (name : String)
    (hname : name ∉ ["loss", "acc", "f1", "precision", "recall"])
    (outputs : List (List ℚ)) (labels : List ℤ) (loss : ℚ) :
    step_Plateau_scheduler mf name outputs labels loss
      = .error (.typeError plateauMsg) := by
  simp only [List.mem_cons, List.mem_singleton, not_or] at hname
  obtain ⟨h1, h2, h3, h4, h5⟩ := hname
  unfold step_Plateau_scheduler
  rw [if_neg h1, if_neg h2, if_neg h3, if_neg h4, if_neg (by simpa using h5)]
  rfl

lemma trainerStep_plateau_err (mf : MetricFns) (name : String)
    (hname : name ∉ ["loss", "acc", "f1", "precision", "recall"])
    (outputs : List (List ℚ)) (labels : List ℤ) (loss : ℚ) :
    trainerStep mf "plateau" name outputs labels loss
      = .error (.typeError plateauMsg) := by
  unfold trainerStep
  rw [if_pos rfl, plateau_unknown_eval mf name hname]
  rfl

lemma batchBody_sched_err (cfg : TrainCfg) (mf : MetricFns) (od : ℕ → BatchData)
    (el : ℕ → ℚ) (step : ℕ) (s : TrState) (e : PyErr)
    (hacc : cfg.accumSteps = 1)
    (hsch : cfg.useScheduler = true) (hsbb : cfg.stepBetweenBatch = true)
    (hsbe : cfg.stepBetweenEpoch ≠ true)
    (herr : trainerStep mf cfg.schedType cfg.schedMetric (od s.globalStep).outputs
        (od s.globalStep).labels (od s.globalStep).lossItem = .error e) :
    batchBody cfg mf od el step s
      = (Ev.forwardBackward :: (if cfg.doAdv = true then [Ev.advCycle] else [])
          ++ [Ev.clipGrad, Ev.optStep], s, some e) := by
  unfold batchBody
  dsimp only
  rw [if_pos (by rw [hacc]; exact Nat.mod_one _), if_pos ⟨hsch, hsbb⟩, if_neg hsbe, herr]

/-- A concrete run with a plateau schedule and unknown monitored name. -/
def cfgBogus : TrainCfg := ⟨1, 1, 1, true, true, false, 0, false, "plateau", "bogus"⟩

/-- C5 is false as stated: the unknown-metric `TypeError` is raised by
`step_Plateau_scheduler` at the first schedule advance (after forward and
optimizer steps have run, as the concrete run's trace shows), not at
construction time, and its message enumerates only
`dict_keys(['acc', 'f1', 'precision', 'recall'])` — it does not mention
`loss`. -/
theorem plateau_unknown_metric_cex :
    step_Plateau_scheduler mfC "bogus" [[0, 1]] [0] 1 = .error (.typeError plateauMsg)
    ∧ isSubstr "loss" plateauMsg = false
    ∧ (runTrain cfgBogus mfC odC elC).2.2 = some (.typeError plateauMsg)
    ∧ Ev.forwardBackward ∈ (runTrain cfgBogus mfC odC elC).1
    ∧ Ev.optStep ∈ (runTrain cfgBogus mfC odC elC).1 := by decide

/-- C5 (amended): with a metric-driven (plateau) schedule and an unknown
monitored-scalar name, the run fails with a `TypeError` whose message
enumerates `{acc, f1, precision, recall}` (omitting `loss`), raised at the
first schedule advance — after at least one forward pass and one optimizer
step. -/
theorem plateau_unknown_metric_raises (mf : MetricFns) (name : String)
    (hname : name ∉ ["loss", "acc", "f1", "precision", "recall"]) :
    (∀ (outputs : List (List ℚ)) (labels : List ℤ) (loss : ℚ),
      step_Plateau_scheduler mf name outputs labels loss
        = .error (.typeError plateauMsg))
    ∧ ∀ (cfg : TrainCfg) (od : ℕ → BatchData) (el : ℕ → ℚ),
        cfg.schedType = "plateau" → cfg.schedMetric = name →
        cfg.useScheduler = true → cfg.stepBetweenBatch = true →
        cfg.stepBetweenEpoch ≠ true → cfg.accumSteps = 1 →
        1 ≤ cfg.numEpochs → 1 ≤ cfg.numBatches →
        (runTrain cfg mf od el).2.2 = some (.typeError plateauMsg)
        ∧ Ev.forwardBackward ∈ (runTrain cfg mf od el).1
        ∧ Ev.optStep ∈ (runTrain cfg mf od el).1 := by
  refine ⟨plateau_unknown_eval mf name hname, ?_⟩
  intro cfg od el hst hsm hsch hsbb hsbe hacc hep hba
  obtain ⟨k, hk⟩ : ∃ k, cfg.numEpochs = k + 1 := ⟨cfg.numEpochs - 1, by omega⟩
  obtain ⟨n, hn⟩ : ∃ n, cfg.numBatches = n + 1 := ⟨cfg.numBatches - 1, by omega⟩
  have herr : trainerStep mf cfg.schedType cfg.schedMetric (od 0).outputs
      (od 0).labels (od 0).lossItem = .error (.typeError plateauMsg) := by
    rw [hst, hsm]
    exact trainerStep_plateau_err mf name hname _ _ _
  have hb := batchBody_sched_err cfg mf od el 0
    { globalStep := 0, devBestLoss := .inf, bestEvalResults := none }
    (.typeError plateauMsg) hacc hsch hsbb hsbe herr
  have hrb : runBatches cfg mf od el 0 cfg.numBatches
      { globalStep := 0, devBestLoss := .inf, bestEvalResults := none }
      = batchBody cfg mf od el 0
        { globalStep := 0, devBestLoss := .inf, bestEvalResults := none } := by
    rw [hn]
    exact runBatches_succ_err cfg mf od el 0 n _ _ (by rw [hb])
  have hre : (runEpochs cfg mf od el cfg.numEpochs
      { globalStep := 0, devBestLoss := .inf, bestEvalResults := none })
      = batchBody cfg mf od el 0
        { globalStep := 0, devBestLoss := .inf, bestEvalResults := none } := by
    rw [hk]
    simp only [runEpochs, hrb, hb]
  have hrt : runTrain cfg mf od el
      = batchBody cfg mf od el 0
        { globalStep := 0, devBestLoss := .inf, bestEvalResults := none } := by
    simp only [runTrain, hre, hb]
  rw [hrt, hb]
  refine ⟨rfl, List.mem_cons_self _ _, ?_⟩
  by_cases hadv : cfg.doAdv = true <;> simp [hadv]

/-- Witness for C5 (amended) at the monitored name `"bogus"`. -/
theorem plateau_unknown_metric_raises_witness :
    step_Plateau_scheduler mfC "bogus" [[0, 1]] [0] 1 = .error (.typeError plateauMsg)
    ∧ (runTrain cfgBogus mfC odC elC).2.2 = some (.typeError plateauMsg) := by
  have h := plateau_unknown_metric_raises mfC "bogus" (by decide)
  exact ⟨h.1 [[0, 1]] [0] 1,
    (h.2 cfgBogus odC elC rfl rfl rfl rfl (by decide) rfl (by decide) (by decide)).1⟩

/-- Metric collaborators with distinguishable values (acc 10, f1 20,
precision 30, recall 40). -/
def mfDist : MetricFns := ⟨fun _ _ => 10, fun _ _ => 20, fun _ _ => 30, fun _ _ => 40⟩

/-- C6: evaluation of `step_Plateau_scheduler` on every monitored name.
`loss` is fed directly and `acc`/`f1` are recomputed and fed, as claimed; but
for `precision` and `recall` the code reads `m['p']` and `m['r']` although
`Trainer.metric` returns the keys `precision`/`recall`, so instead of feeding
the recomputed values (30/40, present in the dict) it raises `KeyError` —
the claim describes the evident intent, the code has a key-name slip. -/
theorem plateau_precision_recall_keyerror :
    step_Plateau_scheduler mfDist "loss" [[0, 1], [2, 0]] [1, 0] 7 = .ok 7
    ∧ step_Plateau_scheduler mfDist "acc" [[0, 1], [2, 0]] [1, 0] 7 = .ok 10
    ∧ step_Plateau_scheduler mfDist "f1" [[0, 1], [2, 0]] [1, 0] 7 = .ok 20
    ∧ step_Plateau_scheduler mfDist "precision" [[0, 1], [2, 0]] [1, 0] 7
        = .error (.keyError "p")
    ∧ step_Plateau_scheduler mfDist "recall" [[0, 1], [2, 0]] [1, 0] 7
        = .error (.keyError "r")
    ∧ trainerMetricDict mfDist ([[0, 1], [2, 0]].map argmaxRow) [1, 0]
        = [("acc", 10), ("f1", 20), ("precision", 30), ("recall", 40)] := by decide

/-! ## Embedding of checkpoint save/load (trainer.py lines 346–385)

State dicts are opaque tokens (`ℕ`); `torch.save`/`torch.load` and the
directory layout are the external persistence collaborator.  `CkptFiles`
holds the `torch.load` results of a checkpoint directory: the optimizer and
scheduler files carry the `{'name': tag, 'state_dict': sd}` dicts (the tag
read with `.get('name')`, hence `Option String`); a `none` file means the
path does not exist. -/

structure CkptFiles where
  modelSD : ℕ
  optimizerFile : Option (Option String × ℕ)
  schedulerFile : Option (Option String × ℕ)
deriving DecidableEq, Repr

/-- The trainer state touched by checkpoint load: model device and the three
mutable state dicts, plus the `logger.info` lines emitted. -/
structure CkptState where
  modelDevice : String
  modelSD : ℕ
  optimizerSD : ℕ
  schedulerSD : ℕ
  infoLog : List String
deriving DecidableEq, Repr

/-- `Trainer.from_pretrained(ab_initio)`: always `model.cpu()`, load the
model weights, `model.to(device)`; unless `ab_initio`, load the optimizer
state only if the saved `name` tag equals the configured optimizer type
(else warn), and likewise for the scheduler when scheduling is enabled. -/
def from_pretrained (device optType schedType : String) (useScheduler : Bool)
    (ab_initio : Bool) (ck : CkptFiles) (s : CkptState) : CkptState :=
  let s1 : CkptState := { s with modelDevice := device, modelSD := ck.modelSD }
  if ab_initio then s1
  else
    let s2 : CkptState :=
      match ck.optimizerFile with
      | none => s1
      | some (tag, sd) =>
        if tag = some optType then
          { s1 with optimizerSD := sd,
                    infoLog := s1.infoLog ++ ["***** Loading optimizer state dict *****"] }
        else
          { s1 with infoLog := s1.infoLog
                      ++ ["***** Your optimizer is different from the saved *****"] }
    match ck.schedulerFile with
    | none => s2
    | some (tag, sd) =>
      if useScheduler then
        if tag = some schedType then
          { s2 with schedulerSD := sd,
                    infoLog := s2.infoLog ++ ["***** Loading scheduler state dict *****"] }
        else
          { s2 with infoLog := s2.infoLog
                      ++ ["***** Your scheduler is different from the saved *****"] }
      else s2

/-- C8: loading a checkpoint whose optimizer and scheduler type tags differ
from the configured types restores the model weights, leaves the current
optimizer and scheduler states at their pre-load values, logs a warning for
each mismatch, and completes normally (the function is total — it never
fails over a stale auxiliary state). -/
theorem from_pretrained_mismatch_skip (device optType schedType : String)
    (useScheduler : Bool) (ck : CkptFiles) (s : CkptState)
    (otag stag : Option String) (osd ssd : ℕ)
    (ho : ck.optimizerFile = some (otag, osd)) (hot : otag ≠ some optType)
    (hs : ck.schedulerFile = some (stag, ssd)) (hst : stag ≠ some schedType)
    (hu : useScheduler = true) :
    (from_pretrained device optType schedType useScheduler false ck s).modelSD = ck.modelSD
    ∧ (from_pretrained device optType schedType useScheduler false ck s).optimizerSD
        = s.optimizerSD
    ∧ (from_pretrained device optType schedType useScheduler false ck s).schedulerSD
        = s.schedulerSD
    ∧ "***** Your optimizer is different from the saved *****"
        ∈ (from_pretrained device optType schedType useScheduler false ck s).infoLog
    ∧ "***** Your scheduler is different from the saved *****"
        ∈ (from_pretrained device optType schedType useScheduler false ck s).infoLog
    ∧ (from_pretrained device optType schedType useScheduler false ck s).modelDevice
        = device := by
  unfold from_pretrained
  simp [ho, hs, hot, hst, hu]

/-- Witness for C8: the spec's scenario, configured type `"adamw"`, stale
saved optimizer tagged `"sgd"` (and a stale scheduler tagged `"linear"`
against configured `"plateau"`). -/
theorem from_pretrained_mismatch_skip_witness :
    (from_pretrained "cuda:0" "adamw" "plateau" true false
        ⟨5, some (some "sgd", 6), some (some "linear", 7)⟩
        ⟨"cuda:0", 1, 2, 3, []⟩).modelSD = (5 : ℕ)
    ∧ (from_pretrained "cuda:0" "adamw" "plateau" true false
        ⟨5, some (some "sgd", 6), some (some "linear", 7)⟩
        ⟨"cuda:0", 1, 2, 3, []⟩).optimizerSD = 2
    ∧ (from_pretrained "cuda:0" "adamw" "plateau" true false
        ⟨5, some (some "sgd", 6), some (some "linear", 7)⟩
        ⟨"cuda:0", 1, 2, 3, []⟩).schedulerSD = 3
    ∧ "***** Your optimizer is different from the saved *****"
        ∈ (from_pretrained "cuda:0" "adamw" "plateau" true false
            ⟨5, some (some "sgd", 6), some (some "linear", 7)⟩
            ⟨"cuda:0", 1, 2, 3, []⟩).infoLog
    ∧ "***** Your scheduler is different from the saved *****"
        ∈ (from_pretrained "cuda:0" "adamw" "plateau" true false
            ⟨5, some (some "sgd", 6), some (some "linear", 7)⟩
            ⟨"cuda:0", 1, 2, 3, []⟩).infoLog
    ∧ (from_pretrained "cuda:0" "adamw" "plateau" true false
        ⟨5, some (some "sgd", 6), some (some "linear", 7)⟩
        ⟨"cuda:0", 1, 2, 3, []⟩).modelDevice = "cuda:0" := by
  have h := from_pretrained_mismatch_skip "cuda:0" "adamw" "plateau" true
    ⟨5, some (some "sgd", 6), some (some "linear", 7)⟩ ⟨"cuda:0", 1, 2, 3, []⟩
    (some "sgd") (some "linear") 6 7 rfl (by decide) rfl (by decide) rfl
  exact h

/-! ## Embedding of `Trainer.save_pretrained` (trainer.py lines 346–361) -/

/-- Events of one `save_pretrained` call: artifact writes (with the `name`
tag for optimizer/scheduler dicts and the model's device at the moment of
serialization) and model device moves. -/
inductive SaveEv where
  | writeFile (fname : String) (tag : Option String) (sd : ℕ) (deviceAtWrite : String)
  | moveModel (dev : String)
deriving DecidableEq, Repr

/-- `Trainer.save_pretrained()`: write `optimizer.pt` (always, tagged with
the optimizer type), `scheduler.pt` (tagged, only if scheduling is enabled),
then `model.cpu()`, write `model.pt`, `model.to(args.model.device)`.  The
current device is threaded through; the result is the event list and the
final model device. -/
def save_pretrained (device optType schedType : String) (useScheduler : Bool)
    (optSD schedSD modelSD : ℕ) (dev0 : String) : List SaveEv × String :=
  let evs1 := [SaveEv.writeFile "optimizer.pt" (some optType) optSD dev0]
  let evs2 := evs1 ++ (if useScheduler
    then [SaveEv.writeFile "scheduler.pt" (some schedType) schedSD dev0] else [])
  let d1 := "cpu"
  let evs3 := evs2 ++ [SaveEv.moveModel d1, SaveEv.writeFile "model.pt" none modelSD d1]
  let d2 := device
  (evs3 ++ [SaveEv.moveModel d2], d2)

/-- C9: when the model starts on its configured compute device, after
`save_pretrained` returns it is on the same device again; the model weights
are serialized while the model is on `"cpu"` (moved off before, moved back
after); the optimizer artifact is always written tagged with the optimizer
type; the scheduler artifact is written (tagged with the scheduler type)
exactly when scheduling is enabled. -/
theorem save_pretrained_device_artifacts (device optType schedType : String)
    (useScheduler : Bool) (optSD schedSD modelSD : ℕ) (dev0 : String)
    (h : dev0 = device) :
    (save_pretrained device optType schedType useScheduler optSD schedSD modelSD dev0).2
        = dev0
    ∧ (∀ tag sd d, SaveEv.writeFile "model.pt" tag sd d
        ∈ (save_pretrained device optType schedType useScheduler optSD schedSD modelSD dev0).1
        → d = "cpu")
    ∧ SaveEv.writeFile "optimizer.pt" (some optType) optSD dev0
        ∈ (save_pretrained device optType schedType useScheduler optSD schedSD modelSD dev0).1
    ∧ ((SaveEv.writeFile "scheduler.pt" (some schedType) schedSD dev0
        ∈ (save_pretrained device optType schedType useScheduler optSD schedSD modelSD dev0).1)
        ↔ useScheduler = true)
    ∧ ∃ pre, (save_pretrained device optType schedType useScheduler optSD schedSD modelSD dev0).1
        = pre ++ [SaveEv.moveModel "cpu", SaveEv.writeFile "model.pt" none modelSD "cpu",
                  SaveEv.moveModel device]
          ∧ (∀ t sd d, SaveEv.writeFile "model.pt" t sd d ∉ pre) := by
  subst h
  cases useScheduler with
  | true =>
    refine ⟨rfl, ?_, ?_, ?_, ?_⟩
    · intro tag sd d hmem
      simp [save_pretrained] at hmem
      tauto
    · simp [save_pretrained]
    · simp [save_pretrained]
    · refine ⟨[SaveEv.writeFile "optimizer.pt" (some optType) optSD dev0,
        SaveEv.writeFile "scheduler.pt" (some schedType) schedSD dev0], ?_, ?_⟩
      · simp [save_pretrained]
      · intro t sd d hmem
        simp at hmem
  | false =>
    refine ⟨rfl, ?_, ?_, ?_, ?_⟩
    · intro tag sd d hmem
      simp [save_pretrained] at hmem
      tauto
    · simp [save_pretrained]
    · simp [save_pretrained]
    · refine ⟨[SaveEv.writeFile "optimizer.pt" (some optType) optSD dev0], ?_, ?_⟩
      · simp [save_pretrained]
      · intro t sd d hmem
        simp at hmem

/-- Witness for C9 with scheduling enabled. -/
theorem save_pretrained_device_artifacts_witness :
    (save_pretrained "cuda:0" "adamw" "plateau" true 1 2 3 "cuda:0").2 = "cuda:0"
    ∧ (∀ tag sd d, SaveEv.writeFile "model.pt" tag sd d
        ∈ (save_pretrained "cuda:0" "adamw" "plateau" true 1 2 3 "cuda:0").1 → d = "cpu")
    ∧ SaveEv.writeFile "optimizer.pt" (some "adamw") 1 "cuda:0"
        ∈ (save_pretrained "cuda:0" "adamw" "plateau" true 1 2 3 "cuda:0").1
    ∧ ((SaveEv.writeFile "scheduler.pt" (some "plateau") 2 "cuda:0"
        ∈ (save_pretrained "cuda:0" "adamw" "plateau" true 1 2 3 "cuda:0").1) ↔ true = true)
    ∧ ∃ pre, (save_pretrained "cuda:0" "adamw" "plateau" true 1 2 3 "cuda:0").1
        = pre ++ [SaveEv.moveModel "cpu", SaveEv.writeFile "model.pt" none 3 "cpu",
                  SaveEv.moveModel "cuda:0"]
          ∧ (∀ t sd d, SaveEv.writeFile "model.pt" t sd d ∉ pre) :=
  save_pretrained_device_artifacts "cuda:0" "adamw" "plateau" true 1 2 3 "cuda:0" rfl

/-! ## Embedding of the per-batch loss scaling (trainer.py lines 220–244) -/

/-- Events of a backward computation: forward pass, a `.backward()` call on
a scalar, and the adversarial attack/restore around the second pass. -/
inductive StepEv where
  | forwardEv
  | backwardEv (lossValue : ℚ)
  | attackEv (target : List String)
  | restoreEv (target : List String)
deriving DecidableEq, Repr

/-- `Trainer.training_step`: `rawLoss` is the scalar from `compute_loss`
(after the multi-GPU `.mean()`, which is the identity on the scalar); it is
divided by `gradient_accumulation_steps` when that is `> 1`, and routed
through `amp.scale_loss` (factor `ampScale`) when `fp16` is set.  Returns
the event trace and `loss_item` (`loss.item()` of the unscaled-by-amp
loss). -/
def training_step_tr (gradAccumSteps : ℕ) (fp16 : Bool) (ampScale : ℚ)
    (rawLoss : ℚ) : List StepEv × ℚ :=
  let loss := if 1 < gradAccumSteps then rawLoss / gradAccumSteps else rawLoss
  ([.forwardEv, .backwardEv (if fp16 then ampScale * loss else loss)], loss)

/-- `Trainer.do_adv`: `attack`, a second forward pass on the same batch,
`loss_adv.backward()` on the raw adversarial loss, `restore`. -/
def do_adv_tr (target : List String) (advRawLoss : ℚ) : List StepEv :=
  [.attackEv target, .forwardEv, .backwardEv advRawLoss, .restoreEv target]

/-- C10: with accumulation factor `k > 1`, the clean pass backpropagates the
loss divided by `k` (further multiplied by the amp loss scale when fp16 is
on), while `do_adv` backpropagates the raw adversarial loss — not divided by
`k` and not routed through the loss-scaling wrapper. -/
theorem adv_backward_unscaled (k : ℕ) (fp16 : Bool) (ampScale rawLoss advLoss : ℚ)
    (target : List String) (hk : 1 < k) :
    do_adv_tr target advLoss
      = [.attackEv target, .forwardEv, .backwardEv advLoss, .restoreEv target]
    ∧ (training_step_tr k fp16 ampScale rawLoss).1
      = [.forwardEv, .backwardEv
          (if fp16 then ampScale * (rawLoss / k) else rawLoss / k)]
    ∧ (training_step_tr k fp16 ampScale rawLoss).2 = rawLoss / k := by
  refine ⟨rfl, ?_, ?_⟩
  · unfold training_step_tr
    rw [if_pos hk]
  · unfold training_step_tr
    rw [if_pos hk]

/-- Witness for C10 at `k = 2`, fp16 off. -/
theorem adv_backward_unscaled_witness :
    do_adv_tr ["emb"] 3
      = [.attackEv ["emb"], .forwardEv, .backwardEv 3, .restoreEv ["emb"]]
    ∧ (training_step_tr 2 false 1 5).1
      = [.forwardEv, .backwardEv (if false then 1 * ((5 : ℚ) / (2 : ℕ)) else (5 : ℚ) / (2 : ℕ))]
    ∧ (training_step_tr 2 false 1 5).2 = (5 : ℚ) / (2 : ℕ) :=
  adv_backward_unscaled 2 false 1 5 3 ["emb"] (by decide)

end Embedding
